import Mathlib

/-!
Identifier resolution and conversion of go-steam (`id.go`, `steam.go`)

A shallow embedding of the identifier subsystem:

* Go strings are lists of runes (`List Char`), i.e. the well-formed UTF-8 strings;
* `uint32` / `uint64` values are natural numbers, every operation that can wrap is written
  with an explicit `% 2 ^ 32` / `% 2 ^ 64`;
* a Go result pair `(string, error)` is a pair `List Char × Option Error`;
* the standard-library calls made by `id.go` (`strconv.ParseUint`, `strconv.FormatUint`,
  `fmt.Sprintf`, `fmt.Sscanf`, `strings.HasPrefix`, `regexp.FindStringSubmatch`) are embedded
  for the arguments with which `id.go` calls them;
* the network (`http.Get`, `io.ReadAll`, `json.Unmarshal`) is a parameter `Remote`; every
  function that can reach it also returns the list of requests it issued.
-/

namespace strconv

/-- The two error kinds of `strconv.ParseUint`. -/
inductive NumError where
  | ErrSyntax
  | ErrRange
  deriving DecidableEq, Repr

/-- Largest `uint64`. -/
def maxUint64 : Nat := 2 ^ 64 - 1

/-- In `ParseUint` for base 10: the smallest number such that `cutoff*base > maxUint64`. -/
def cutoff : Nat := maxUint64 / 10 + 1

/-- The test `'0' <= c && c <= '9'`. -/
def isDecimal (c : Char) : Bool := decide ('0'.toNat ≤ c.toNat) && decide (c.toNat ≤ '9'.toNat)

/-- The body of the `for _, c := range []byte(s)` loop of `strconv.ParseUint(s, 10, 64)`,
with `n` the value accumulated so far. A rune that is not a decimal digit is a syntax error
(a letter is a digit `>= base`, any other byte takes the `default` case). -/
def parseUintLoop : List Char → Nat → Except NumError Nat
  | [], n => .ok n
  | c :: cs, n =>
    if isDecimal c then
      let d := c.toNat - 48
      if n ≥ cutoff then .error .ErrRange
      else
        let n10 := n * 10
        let n1 := (n10 + d) % 2 ^ 64
        if n1 < n10 ∨ n1 > maxUint64 then .error .ErrRange
        else parseUintLoop cs n1
    else .error .ErrSyntax

/-- Go: `strconv.ParseUint(s, 10, 64)`. -/
def ParseUint (s : List Char) : Except NumError Nat :=
  if s = [] then .error .ErrSyntax else parseUintLoop s 0

/-- The digit table `"0123456789"` indexed by a digit value. -/
def digitChar (d : Nat) : Char := ['0', '1', '2', '3', '4', '5', '6', '7', '8', '9'].getD d '0'

/-- Decimal digits of `u`, most significant first, written in front of `a`; the first argument
bounds the number of digits produced. -/
def formatBits : Nat → Nat → List Char → List Char
  | 0, _, a => a
  | fuel + 1, u, a =>
    if u < 10 then digitChar u :: a
    else formatBits fuel (u / 10) (digitChar (u % 10) :: a)

/-- Go: `strconv.FormatUint(i, 10)` for a `uint64` (at most 20 digits); it is also what the
verb `%d` of `fmt.Sprintf` prints for an unsigned operand. -/
def FormatUint (i : Nat) : List Char := formatBits 20 i []

/-- The number a string of decimal digits denotes (digit value `c - '0'`). -/
def decimalValue (s : List Char) : Nat := s.foldl (fun n c => n * 10 + (c.toNat - 48)) 0

/-- An unsigned 64-bit decimal numeral: one or more decimal digits, nothing else, denoting a
value below `2 ^ 64` (leading zeros allowed). -/
def isUint64Numeral (s : List Char) : Prop :=
  s ≠ [] ∧ (∀ c ∈ s, isDecimal c = true) ∧ decimalValue s < 2 ^ 64

instance (s : List Char) : Decidable (isUint64Numeral s) := by
  unfold isUint64Numeral
  infer_instance

end strconv

namespace fmt

/-- The errors `fmt.Sscanf` can report for the formats used in `id.go`. -/
inductive ScanError where
  /-- Error `io.ErrUnexpectedEOF`: the input ended inside literal text of the format. -/
  | unexpectedEOF
  /-- Error `io.EOF`: the input ended where a number had to start. -/
  | EOF
  /-- The message "input does not match format". -/
  | noMatch
  /-- The message "unexpected newline". -/
  | unexpectedNewline
  /-- The message "expected integer". -/
  | expectedInteger
  /-- The error of `strconv.ParseUint` on the scanned token. -/
  | num (e : strconv.NumError)
  /-- The message "unsigned integer overflow on token ...". -/
  | overflow
  deriving DecidableEq, Repr

/-- The width limit of the scanner: `hugeWid = 1 << 30`. -/
def hugeWid : Nat := 1 <<< 30

/-- The ranges of the table `space` of package `fmt`. -/
def space : List (Nat × Nat) :=
  [(0x0009, 0x000d), (0x0020, 0x0020), (0x0085, 0x0085), (0x00a0, 0x00a0), (0x1680, 0x1680),
   (0x2000, 0x200a), (0x2028, 0x2029), (0x202f, 0x202f), (0x205f, 0x205f), (0x3000, 0x3000)]

/-- Go: `isSpace(r)`. -/
def isSpace (r : Char) : Bool :=
  space.any fun rng => decide (rng.1 ≤ r.toNat) && decide (r.toNat ≤ rng.2)

/-- The scanner state `ss`: the unread input and the number of runes consumed. The read limit
`argLimit` always equals `hugeWid` for a verb without a width. -/
structure ss where
  rs : List Char
  count : Nat
  deriving DecidableEq, Repr

/-- Go: `(*ss).getRune`: the next rune and the state after it, `none` for `eof` (end of input,
or `count >= argLimit`). -/
def ss.getRune (s : ss) : Option (Char × ss) :=
  if s.count ≥ hugeWid then none
  else
    match s.rs with
    | [] => none
    | r :: rest => some (r, ⟨rest, s.count + 1⟩)

/-- Go: `(*ss).advance` on a format of literal runes only (no space, no `%`): every rune is
read with `mustReadRune` and compared. -/
def ss.advance (s : ss) : List Char → Except ScanError ss
  | [] => .ok s
  | fmtc :: rest =>
    match s.getRune with
    | none => .error .unexpectedEOF
    | some (inputc, s1) => if fmtc = inputc then ss.advance s1 rest else .error .noMatch

/-- Go: `(*ss).SkipSpace` with `nlIsSpace = false`, on input `rs` with `count` runes consumed.
A carriage return is a space whether or not a newline follows it; the newline itself is the
error. -/
def skipSpaceLoop : List Char → Nat → Except ScanError ss
  | [], count => .ok ⟨[], count⟩
  | r :: rs, count =>
    if count ≥ hugeWid then .ok ⟨r :: rs, count⟩
    else if r = '\n' then .error .unexpectedNewline
    else if isSpace r then skipSpaceLoop rs (count + 1)
    else .ok ⟨r :: rs, count⟩

/-- Go: `(*ss).SkipSpace`. -/
def ss.SkipSpace (s : ss) : Except ScanError ss := skipSpaceLoop s.rs s.count

/-- The loop `for s.accept(digits) {}` of `scanNumber` with `digits = "0123456789"`: the
accepted runes (the token) and the state after them. -/
def acceptLoop : List Char → Nat → List Char × ss
  | [], count => ([], ⟨[], count⟩)
  | r :: rs, count =>
    if count ≥ hugeWid then ([], ⟨r :: rs, count⟩)
    else if strconv.isDecimal r then
      let res := acceptLoop rs (count + 1)
      (r :: res.1, res.2)
    else ([], ⟨r :: rs, count⟩)

/-- Go: `(*ss).scanUint('d', bitSize)`: skip space, require input (`notEOF`), require a first
digit, take the longest run of digits, convert it with `strconv.ParseUint(tok, 10, 64)` and
check that it fits `bitSize` bits. -/
def ss.scanUint (s : ss) (bitSize : Nat) : Except ScanError (Nat × ss) :=
  match s.SkipSpace with
  | .error e => .error e
  | .ok s1 =>
    match s1.getRune with
    | none => .error .EOF
    | some (r, _) =>
      if strconv.isDecimal r then
        let res := acceptLoop s1.rs s1.count
        match strconv.ParseUint res.1 with
        | .error e => .error (.num e)
        | .ok i =>
          let x := ((i <<< (64 - bitSize)) % 2 ^ 64) >>> (64 - bitSize)
          if x ≠ i then .error .overflow else .ok (i, res.2)
      else .error .expectedInteger

/-- The verb `%d` with a `*uint32` operand in `doScanf`: `SkipSpace`, then `scanOne`. -/
def ss.verbUint32 (s : ss) : Except ScanError (Nat × ss) :=
  match s.SkipSpace with
  | .error e => .error e
  | .ok s1 => s1.scanUint 32

/-- Go: `fmt.Sscanf(str, "[U:1:%d]", &accountID)` with `accountID` a `uint32`. Input left
after the format is exhausted is not looked at. -/
def SscanfU1 (str : List Char) : Except ScanError Nat :=
  match ss.advance ⟨str, 0⟩ ['[', 'U', ':', '1', ':'] with
  | .error e => .error e
  | .ok s1 =>
    match s1.verbUint32 with
    | .error e => .error e
    | .ok (accountID, s2) =>
      match s2.advance [']'] with
      | .error e => .error e
      | .ok _ => .ok accountID

/-- Go: `fmt.Sscanf(str, "STEAM_%d:%d:%d", &universe_, &authServer, &accountNumber)` with three
`uint32` operands. Input left after the format is exhausted is not looked at. -/
def SscanfSTEAM (str : List Char) : Except ScanError (Nat × Nat × Nat) :=
  match ss.advance ⟨str, 0⟩ ['S', 'T', 'E', 'A', 'M', '_'] with
  | .error e => .error e
  | .ok s1 =>
    match s1.verbUint32 with
    | .error e => .error e
    | .ok (universe_, s2) =>
      match s2.advance [':'] with
      | .error e => .error e
      | .ok s3 =>
        match s3.verbUint32 with
        | .error e => .error e
        | .ok (authServer, s4) =>
          match s4.advance [':'] with
          | .error e => .error e
          | .ok s5 =>
            match s5.verbUint32 with
            | .error e => .error e
            | .ok (accountNumber, _) => .ok (universe_, authServer, accountNumber)

end fmt

/-- The error values a function of `id.go` can return. -/
inductive Error where
  /-- An error of `fmt.Sscanf`. -/
  | scan (e : fmt.ScanError)
  /-- The value `ErrTooManyRequests` of `steam.go`. -/
  | ErrTooManyRequests
  /-- The value `ErrForbidden` of `steam.go`. -/
  | ErrForbidden
  /-- The error `fmt.Errorf("request failed with statuscode %d", code)`. -/
  | statusCode (code : Nat)
  /-- A failure of `http.Get`. -/
  | transport (msg : List Char)
  /-- A failure of `io.ReadAll` on the response body. -/
  | read (msg : List Char)
  deriving DecidableEq, Repr

/-- Go: `SteamID64ToSteamID(steamID64 uint64)`. -/
def SteamID64ToSteamID (steamID64 : Nat) : List Char :=
  let universe_ := (steamID64 >>> 56) &&& 0xFF
  let accountID := steamID64 &&& 0xFFFFFFFF
  let authServer := accountID % 2
  let accountNumber := (accountID - authServer) / 2
  "STEAM_".toList ++ strconv.FormatUint universe_ ++ ':' :: strconv.FormatUint authServer
    ++ ':' :: strconv.FormatUint accountNumber

/-- Go: `SteamID64ToSteamID3(steamID64 uint64)`. -/
def SteamID64ToSteamID3 (steamID64 : Nat) : List Char :=
  let accountID := steamID64 &&& 0xFFFFFFFF
  "[U:1:".toList ++ strconv.FormatUint accountID ++ [']']

/-- Go: `SteamID3ToSteamID64(steamID3 string)`. -/
def SteamID3ToSteamID64 (steamID3 : List Char) : List Char × Option Error :=
  match fmt.SscanfU1 steamID3 with
  | .error err => ([], some (.scan err))
  | .ok accountID =>
    let steamID64 := 0x110000100000000 ||| accountID
    (strconv.FormatUint steamID64, none)

/-- Go: `SteamIDToSteamID64(steamID string)`; `accountNumber*2 + authServer` is `uint32`
arithmetic, `uint64(universe_) << 56` is `uint64` arithmetic. -/
def SteamIDToSteamID64 (steamID : List Char) : List Char × Option Error :=
  match fmt.SscanfSTEAM steamID with
  | .error err => ([], some (.scan err))
  | .ok (universe_, authServer, accountNumber) =>
    let accountID := (accountNumber * 2 + authServer) % 2 ^ 32
    let steamID64 := ((universe_ <<< 56) % 2 ^ 64) ||| (1 <<< 52) ||| (1 <<< 32) ||| accountID
    (strconv.FormatUint steamID64, none)


namespace strings

/-- Go: `strings.HasPrefix(s, pre)`. -/
def HasPrefix (s pre : List Char) : Bool := pre.isPrefixOf s

end strings

namespace regexp

/-- A match, at the very start of `s`, of a pattern made of the literal text `lit` followed by
one capture group `(C+)` for a rune class `C`: the whole match and the (greedy) group. -/
def matchAt (lit : List Char) (cls : Char → Bool) (s : List Char) : Option (List (List Char)) :=
  if lit.isPrefixOf s then
    let group := (s.drop lit.length).takeWhile cls
    if group = [] then none else some [lit ++ group, group]
  else none

/-- Go: `FindStringSubmatch(s)` of a compiled pattern `lit(C+)`: the leftmost match as
`[whole, group]`, or the nil slice when the pattern matches nowhere. -/
def FindStringSubmatch (lit : List Char) (cls : Char → Bool) : List Char → List (List Char)
  | [] => []
  | c :: cs =>
    match matchAt lit cls (c :: cs) with
    | some m => m
    | none => FindStringSubmatch lit cls cs

/-- The literal part of the pattern `https:\/\/steamcommunity\.com\/id\/([^\/]+)`. -/
def vanityLit : List Char := "https://steamcommunity.com/id/".toList

/-- The class `[^\/]`: every rune but the slash (newline included). -/
def notSlash (c : Char) : Bool := c != '/'

/-- The literal part of the pattern `https:\/\/steamcommunity\.com\/profiles\/(\d+)`. -/
def ID64Lit : List Char := "https://steamcommunity.com/profiles/".toList

/-- The class `\d`, which is `[0-9]`. -/
def digit (c : Char) : Bool := strconv.isDecimal c

end regexp

/-- The constant `SteamWebAPI` of `steam.go`. -/
def SteamWebAPI : List Char := "http://api.steampowered.com/".toList

/-- The constant `SteamCommunityAPI` of `steam.go`. -/
def SteamCommunityAPI : List Char := "https://steamcommunity.com/".toList

/-- The constant `SteamWebAPIISteamUser` of `steam.go`. -/
def SteamWebAPIISteamUser : List Char := SteamWebAPI ++ "ISteamUser/".toList

/-- The struct `Steam` of `steam.go`. -/
structure Steam where
  Key : List Char
  Langauge : List Char
  CountryCode : List Char
  deriving DecidableEq, Repr

/-- A GET request as `getSteamIDFromVanity` builds it: the URL path and the three query
parameters `key`, `vanityurl` and `format`. -/
structure Request where
  path : List Char
  key : List Char
  vanityurl : List Char
  format : List Char
  deriving DecidableEq, Repr

/-- What `id.go` uses of an `*http.Response`: the status code and the outcome of
`io.ReadAll(resp.Body)` (the body, or the message of a read failure). -/
structure Response where
  StatusCode : Nat
  Body : Except (List Char) (List Char)

/-- The outside world of `getSteamIDFromVanity`: `Get` is `http.Get` (a response, or the
message of a transport failure); `steamid` is `json.Unmarshal` of a body into the response
struct followed by reading `response.Vanity.SteamID`, the empty string when the body has no
such field. -/
structure Remote where
  Get : Request → Except (List Char) Response
  steamid : List Char → List Char

/-- Go: `HandleStatus(resp)` of `steam.go`, `none` for a nil error. -/
def HandleStatus (resp : Response) : Option Error :=
  if resp.StatusCode = 200 then none
  else if resp.StatusCode = 403 then some .ErrForbidden
  else if resp.StatusCode = 429 then some .ErrTooManyRequests
  else some (.statusCode resp.StatusCode)

/-- Go: `(s Steam) getSteamIDFromVanity(vanity)`: the result pair and the requests issued. -/
def Steam.getSteamIDFromVanity (s : Steam) (net : Remote) (vanity : List Char) :
    (List Char × Option Error) × List Request :=
  let req : Request :=
    ⟨SteamWebAPIISteamUser ++ "ResolveVanityURL/v1".toList, s.Key, vanity, "json".toList⟩
  match net.Get req with
  | .error msg => (([], some (.transport msg)), [req])
  | .ok resp =>
    match HandleStatus resp with
    | some err => (([], some err), [req])
    | none =>
      match resp.Body with
      | .error msg => (([], some (.read msg)), [req])
      | .ok b => ((net.steamid b, none), [req])

/-- Go: `(s Steam) getSteamIDFromURL(url)`: the returned string and the requests issued. -/
def Steam.getSteamIDFromURL (s : Steam) (net : Remote) (url : List Char) :
    List Char × List Request :=
  let vanityMatch := regexp.FindStringSubmatch regexp.vanityLit regexp.notSlash url
  let ID64Match := regexp.FindStringSubmatch regexp.ID64Lit regexp.digit url
  let r : (List Char × Option Error) × List Request :=
    if vanityMatch.length > 1 then s.getSteamIDFromVanity net (vanityMatch.getD 1 [])
    else (([], none), [])
  match r.1.2 with
  | some _ => ([], r.2)
  | none =>
    if ID64Match.length > 1 then (ID64Match.getD 1 [], r.2)
    else (r.1.1, r.2)

/-- Go: `(s Steam) DetermineSteamID(input)`: the result pair and the requests issued. -/
def Steam.DetermineSteamID (s : Steam) (net : Remote) (input : List Char) :
    (List Char × Option Error) × List Request :=
  match strconv.ParseUint input with
  | .ok _ => ((input, none), [])
  | .error _ =>
    if strings.HasPrefix input "[U:1:".toList then (SteamID3ToSteamID64 input, [])
    else if strings.HasPrefix input "STEAM_".toList then (SteamIDToSteamID64 input, [])
    else if strings.HasPrefix input SteamCommunityAPI then
      let r := s.getSteamIDFromURL net input
      ((r.1, none), r.2)
    else s.getSteamIDFromVanity net input


/-- A run of blanks as `%d` skips it: spaces in the sense of `fmt`, none of them a newline. -/
def Blanks (w : List Char) : Prop := ∀ c ∈ w, fmt.isSpace c = true ∧ c ≠ '\n'

/-- A decimal field that fits a `uint32`: one or more decimal digits with a value below
`2 ^ 32`. -/
def Uint32Field (f : List Char) : Prop :=
  f ≠ [] ∧ (∀ c ∈ f, strconv.isDecimal c = true) ∧ strconv.decimalValue f < 2 ^ 32

/-- One or more decimal digits. -/
def DecimalField (f : List Char) : Prop := f ≠ [] ∧ ∀ c ∈ f, strconv.isDecimal c = true

/-- The exact shape `STEAM_<universe>:<authServerFlag>:<accountNumber>`: three fields of
decimal digits with nothing before, between or after them. -/
def ExactLegacyShape (s : List Char) : Prop :=
  ∃ u a n, DecimalField u ∧ DecimalField a ∧ DecimalField n ∧
    s = "STEAM_".toList ++ u ++ ':' :: a ++ ':' :: n

/-- The number of runes of a text `STEAM_ w1 u : w2 a : w3 n` (six runes of literal text, the
three fields with the blanks before them, and two colons). -/
def acceptedLength (w1 u w2 a w3 n : List Char) : Nat :=
  6 + w1.length + u.length + 1 + w2.length + a.length + 1 + w3.length + n.length

/-- A reading of `s` as `STEAM_ w1 u : w2 a : w3 n rest`: `u`, `a`, `n` are `uint32` decimal
fields, `w1`, `w2`, `w3` are (possibly empty) runs of blanks, the part before `rest` is at most
`hugeWid` runes long, and the third field is the whole run of digits at its place: `rest` does
not start with a digit, unless the part before it is exactly `hugeWid` runes long (the scanner
reads no further). -/
def LegacyFields (s w1 u w2 a w3 n rest : List Char) : Prop :=
  Blanks w1 ∧ Uint32Field u ∧ Blanks w2 ∧ Uint32Field a ∧ Blanks w3 ∧ Uint32Field n ∧
    s = "STEAM_".toList ++ (w1 ++ u ++ ':' :: (w2 ++ a ++ ':' :: (w3 ++ n ++ rest))) ∧
    acceptedLength w1 u w2 a w3 n ≤ fmt.hugeWid ∧
    (acceptedLength w1 u w2 a w3 n = fmt.hugeWid ∨
      ∀ c, rest.head? = some c → strconv.isDecimal c = false)

/-- The shape `fmt.Sscanf` accepts for `STEAM_%d:%d:%d`: the text starts with `STEAM_` and
three `uint32` decimal fields separated by colons, each field may be preceded by blanks, and
anything that is not a further digit of the third field may follow it. -/
def LenientLegacyShape (s : List Char) : Prop :=
  ∃ w1 u w2 a w3 n rest, LegacyFields s w1 u w2 a w3 n rest

/-- A remote that answers every request with status 200 and a body without a `steamid`. -/
def Remote.noMatch : Remote :=
  ⟨fun _ => .ok ⟨200, .ok "\x7b\"response\":\x7b\"success\":42\x7d\x7d".toList⟩, fun _ => []⟩

/-- A remote that answers every request with status 403. -/
def Remote.forbidden : Remote := ⟨fun _ => .ok ⟨403, .ok []⟩, fun _ => []⟩

/-- The body of a `ResolveVanityURL` answer that reports the identifier
`76561197960287930`. -/
def foundBody : List Char :=
  "\x7b\"response\":\x7b\"steamid\":\"76561197960287930\",\"success\":1\x7d\x7d".toList

/-- A remote that answers every request with status 200 and the body `foundBody`, from which
the decoder reads the identifier `76561197960287930` (and nothing from any other body). -/
def Remote.found : Remote :=
  ⟨fun _ => .ok ⟨200, .ok foundBody⟩,
    fun b => if b = foundBody then "76561197960287930".toList else []⟩

/-! ## Decimal numerals: `strconv.ParseUint` and `strconv.FormatUint` -/

namespace strconv

theorem isDecimal_iff (c : Char) : isDecimal c = true ↔ 48 ≤ c.toNat ∧ c.toNat ≤ 57 := by
  simp only [isDecimal, Bool.and_eq_true, decide_eq_true_eq]
  exact Iff.rfl

theorem foldl_step_ge (cs : List Char) (n : Nat) :
    n ≤ cs.foldl (fun n c => n * 10 + (c.toNat - 48)) n := by
  induction cs generalizing n with
  | nil => exact Nat.le_refl _
  | cons c cs ih =>
    simp only [List.foldl_cons]
    exact Nat.le_trans (by omega) (ih _)

theorem parseUintLoop_ok (cs : List Char) (n : Nat) (hd : ∀ c ∈ cs, isDecimal c = true)
    (hv : cs.foldl (fun n c => n * 10 + (c.toNat - 48)) n < 2 ^ 64) :
    parseUintLoop cs n = .ok (cs.foldl (fun n c => n * 10 + (c.toNat - 48)) n) := by
  induction cs generalizing n with
  | nil => rfl
  | cons c cs ih =>
    have hc : isDecimal c = true := hd c (List.mem_cons_self _ _)
    simp only [List.foldl_cons] at hv ⊢
    have hlt : n * 10 + (c.toNat - 48) < 2 ^ 64 := lt_of_le_of_lt (foldl_step_ge cs _) hv
    have hcut : ¬ n ≥ cutoff := by
      simp only [cutoff, maxUint64]
      omega
    have hov : ¬ (n * 10 + (c.toNat - 48) < n * 10 ∨ n * 10 + (c.toNat - 48) > maxUint64) := by
      simp only [maxUint64]
      omega
    rw [parseUintLoop]
    simp only [hc, if_true, hcut, if_false, Nat.mod_eq_of_lt hlt, hov]
    exact ih _ (fun c h => hd c (List.mem_cons_of_mem _ h)) hv

theorem parseUintLoop_inv (cs : List Char) (n v : Nat) (h : parseUintLoop cs n = .ok v) :
    (∀ c ∈ cs, isDecimal c = true) ∧ v = cs.foldl (fun n c => n * 10 + (c.toNat - 48)) n
      ∧ (n < 2 ^ 64 → v < 2 ^ 64) := by
  induction cs generalizing n with
  | nil =>
    simp only [parseUintLoop, Except.ok.injEq] at h
    subst h
    simp
  | cons c cs ih =>
    rw [parseUintLoop] at h
    by_cases hc : isDecimal c = true
    · simp only [hc, if_true] at h
      by_cases hcut : n ≥ cutoff
      · simp [hcut] at h
      · simp only [hcut, if_false] at h
        have hlt : n * 10 + (c.toNat - 48) < 2 ^ 64 := by
          by_contra hge
          have hd := (isDecimal_iff c).1 hc
          simp only [cutoff, maxUint64] at hcut
          split at h
          · simp at h
          · rename_i hno
            exact hno (Or.inl (by omega))
        rw [Nat.mod_eq_of_lt hlt] at h
        split at h
        · simp at h
        · obtain ⟨h1, h2, h3⟩ := ih _ h
          refine ⟨?_, ?_, fun _ => h3 hlt⟩
          · intro x hx
            rcases List.mem_cons.1 hx with rfl | hx
            · exact hc
            · exact h1 x hx
          · simpa only [List.foldl_cons] using h2
    · simp [hc] at h

/-- The function `ParseUint` accepts exactly the unsigned 64-bit decimal numerals, and returns
the value they denote. -/
theorem ParseUint_ok_iff (s : List Char) (v : Nat) :
    ParseUint s = .ok v ↔ isUint64Numeral s ∧ decimalValue s = v := by
  constructor
  · intro h
    unfold ParseUint at h
    by_cases hs : s = []
    · simp [hs] at h
    · simp only [hs, if_false] at h
      obtain ⟨h1, h2, h3⟩ := parseUintLoop_inv s 0 v h
      have hv : decimalValue s = v := h2.symm
      exact ⟨⟨hs, h1, by rw [hv]; exact h3 (by norm_num)⟩, hv⟩
  · rintro ⟨⟨hs, hd, hv⟩, rfl⟩
    unfold ParseUint
    simp only [hs, if_false]
    exact parseUintLoop_ok s 0 hd hv

theorem ParseUint_error_of_not_numeral (s : List Char) (h : ¬ isUint64Numeral s) :
    ∃ e, ParseUint s = .error e := by
  cases hp : ParseUint s with
  | error e => exact ⟨e, rfl⟩
  | ok v => exact absurd ((ParseUint_ok_iff s v).1 hp).1 h

end strconv

namespace strconv

theorem digitChar_spec :
    ∀ d, d < 10 → isDecimal (digitChar d) = true ∧ (digitChar d).toNat - 48 = d := by
  decide

theorem decimalValue_append_singleton (xs : List Char) (c : Char) :
    decimalValue (xs ++ [c]) = decimalValue xs * 10 + (c.toNat - 48) := by
  simp [decimalValue, List.foldl_append]

theorem formatBits_append (fuel u : Nat) (a : List Char) :
    formatBits fuel u a = formatBits fuel u [] ++ a := by
  induction fuel generalizing u a with
  | zero => simp [formatBits]
  | succ fuel ih =>
    simp only [formatBits]
    split
    · simp
    · rw [ih _ (digitChar (u % 10) :: a), ih _ [digitChar (u % 10)]]
      simp

theorem formatBits_succ (fuel u : Nat) :
    formatBits (fuel + 1) u [] =
      if u < 10 then [digitChar u] else formatBits fuel (u / 10) [] ++ [digitChar (u % 10)] := by
  simp only [formatBits]
  split
  · rfl
  · exact formatBits_append _ _ _

theorem formatBits_digits (fuel u : Nat) : ∀ c ∈ formatBits fuel u [], isDecimal c = true := by
  induction fuel generalizing u with
  | zero => simp [formatBits]
  | succ fuel ih =>
    rw [formatBits_succ]
    split
    · rename_i h
      intro c hc
      rw [List.mem_singleton.1 hc]
      exact (digitChar_spec u h).1
    · intro c hc
      rcases List.mem_append.1 hc with hc | hc
      · exact ih _ c hc
      · rw [List.mem_singleton.1 hc]
        exact (digitChar_spec _ (Nat.mod_lt _ (by norm_num))).1

theorem formatBits_length (fuel u : Nat) : (formatBits fuel u []).length ≤ fuel := by
  induction fuel generalizing u with
  | zero => simp [formatBits]
  | succ fuel ih =>
    rw [formatBits_succ]
    split
    · simp
    · have := ih (u / 10)
      simp only [List.length_append, List.length_singleton]
      omega

theorem formatBits_ne_nil (fuel u : Nat) : formatBits (fuel + 1) u [] ≠ [] := by
  rw [formatBits_succ]
  split <;> simp

theorem formatBits_value (fuel u : Nat) (h : u < 10 ^ fuel) :
    decimalValue (formatBits fuel u []) = u := by
  induction fuel generalizing u with
  | zero =>
    have : u = 0 := by simpa using h
    subst this
    rfl
  | succ fuel ih =>
    rw [formatBits_succ]
    split
    · rename_i h10
      simpa [decimalValue] using (digitChar_spec u h10).2
    · rw [decimalValue_append_singleton, ih (u / 10) (by rw [pow_succ] at h; omega),
        (digitChar_spec _ (Nat.mod_lt u (by norm_num))).2]
      omega

/-- The output of `FormatUint` is a numeral of at most 20 digits that `ParseUint` reads back. -/
theorem FormatUint_spec (i : Nat) (h : i < 2 ^ 64) :
    FormatUint i ≠ [] ∧ (∀ c ∈ FormatUint i, isDecimal c = true) ∧ (FormatUint i).length ≤ 20
      ∧ decimalValue (FormatUint i) = i :=
  ⟨formatBits_ne_nil 19 i, formatBits_digits 20 i, formatBits_length 20 i,
    formatBits_value 20 i (lt_trans h (by norm_num))⟩

end strconv

/-! ## Scanning a rendered number with `fmt.Sscanf` -/

namespace fmt

theorem not_space_of_isDecimal (c : Char) (h : strconv.isDecimal c = true) :
    c ≠ '\n' ∧ isSpace c = false := by
  have hb := (strconv.isDecimal_iff c).1 h
  constructor
  · rintro rfl
    revert h
    decide
  · simp only [isSpace, space, List.any_cons, List.any_nil, Bool.or_false, Bool.or_eq_false_iff,
      Bool.and_eq_false_iff, decide_eq_false_iff_not]
    omega

theorem skipSpaceLoop_digit (c : Char) (rs : List Char) (count : Nat)
    (h : strconv.isDecimal c = true) : skipSpaceLoop (c :: rs) count = .ok ⟨c :: rs, count⟩ := by
  obtain ⟨h1, h2⟩ := not_space_of_isDecimal c h
  simp only [skipSpaceLoop, h1, h2, if_false]
  split <;> simp

theorem acceptLoop_digits (ds rest : List Char) (count : Nat)
    (hd : ∀ c ∈ ds, strconv.isDecimal c = true)
    (hrest : ∀ c, rest.head? = some c → strconv.isDecimal c = false)
    (hcount : count + ds.length ≤ hugeWid) :
    acceptLoop (ds ++ rest) count = (ds, ⟨rest, count + ds.length⟩) := by
  induction ds generalizing count with
  | nil =>
    cases rest with
    | nil => rfl
    | cons r rs =>
      have hr : strconv.isDecimal r = false := hrest r rfl
      simp only [List.nil_append, acceptLoop, hr, List.length_nil, Nat.add_zero]
      split <;> simp
  | cons d ds ih =>
    have hd0 : strconv.isDecimal d = true := hd d (List.mem_cons_self _ _)
    simp only [List.length_cons] at hcount
    have hlt : ¬ count ≥ hugeWid := by omega
    simp only [List.cons_append, acceptLoop, hlt, if_false, hd0, if_true, List.append_eq]
    rw [ih (count + 1) (fun c h => hd c (List.mem_cons_of_mem _ h)) (by omega)]
    simp only [List.length_cons]
    congr 2
    omega

theorem fits32 (i : Nat) : ((i <<< (64 - 32)) % 2 ^ 64) >>> (64 - 32) = i % 2 ^ 32 := by
  simp only [Nat.shiftLeft_eq, Nat.shiftRight_eq_div_pow]
  norm_num
  omega

/-- Scanning `%d` into a `uint32` where the input starts with a run of digits `ds` denoting a
value below `2 ^ 32`, followed by something that is not a digit. -/
theorem verbUint32_digits (ds rest : List Char) (count : Nat) (hne : ds ≠ [])
    (hd : ∀ c ∈ ds, strconv.isDecimal c = true) (hv : strconv.decimalValue ds < 2 ^ 32)
    (hrest : ∀ c, rest.head? = some c → strconv.isDecimal c = false)
    (hcount : count + ds.length ≤ hugeWid) :
    ss.verbUint32 ⟨ds ++ rest, count⟩ =
      .ok (strconv.decimalValue ds, ⟨rest, count + ds.length⟩) := by
  obtain ⟨d, ds1, rfl⟩ := List.exists_cons_of_ne_nil hne
  have hd0 : strconv.isDecimal d = true := hd d (List.mem_cons_self _ _)
  have hlen : count < hugeWid := by
    simp only [List.length_cons] at hcount
    omega
  have hparse : strconv.ParseUint (d :: ds1) = .ok (strconv.decimalValue (d :: ds1)) :=
    (strconv.ParseUint_ok_iff _ _).2 ⟨⟨hne, hd, lt_trans hv (by norm_num)⟩, rfl⟩
  have hskip := skipSpaceLoop_digit d (ds1 ++ rest) count hd0
  have hacc := acceptLoop_digits (d :: ds1) rest count hd hrest hcount
  simp only [List.cons_append] at hacc
  simp only [ss.verbUint32, ss.SkipSpace, ss.scanUint, List.cons_append, hskip, ss.getRune,
    Nat.not_le.2 hlen, if_false, hd0, if_true, hacc, hparse, fits32, Nat.mod_eq_of_lt hv,
    ne_eq, not_true_eq_false]

end fmt

namespace fmt

theorem hugeWid_eq : hugeWid = 1073741824 := by decide

theorem advance_cons (r : Char) (rs fs : List Char) (count : Nat) (h : count < hugeWid) :
    ss.advance ⟨r :: rs, count⟩ (r :: fs) = ss.advance ⟨rs, count + 1⟩ fs := by
  simp only [ss.advance, ss.getRune, Nat.not_le.2 h, if_false, if_true]

theorem not_decimal_head_colon (rs : List Char) :
    ∀ c, (':' :: rs).head? = some c → strconv.isDecimal c = false := by
  intro c hc
  simp only [List.head?_cons, Option.some.injEq] at hc
  subst hc
  decide

theorem not_decimal_head_bracket (rs : List Char) :
    ∀ c, (']' :: rs).head? = some c → strconv.isDecimal c = false := by
  intro c hc
  simp only [List.head?_cons, Option.some.injEq] at hc
  subst hc
  decide

theorem not_decimal_head_nil :
    ∀ c, ([] : List Char).head? = some c → strconv.isDecimal c = false := by
  intro c hc
  simp at hc

theorem advance_append (lit rest : List Char) (count : Nat)
    (h : count + lit.length ≤ hugeWid) :
    ss.advance ⟨lit ++ rest, count⟩ lit = .ok ⟨rest, count + lit.length⟩ := by
  induction lit generalizing count with
  | nil => rfl
  | cons r lit ih =>
    simp only [List.length_cons] at h
    rw [List.cons_append, advance_cons _ _ _ _ (by omega), ih (count + 1) (by omega)]
    simp only [List.length_cons]
    congr 2
    omega

/-- Reading back three rendered `uint32` values with the format `STEAM_%d:%d:%d`. -/
theorem SscanfSTEAM_render (u a n : Nat) (hu : u < 2 ^ 32) (ha : a < 2 ^ 32) (hn : n < 2 ^ 32) :
    SscanfSTEAM ("STEAM_".toList ++ strconv.FormatUint u ++ ':' :: strconv.FormatUint a
      ++ ':' :: strconv.FormatUint n) = .ok (u, a, n) := by
  obtain ⟨u1, u2, u3, u4⟩ := strconv.FormatUint_spec u (lt_trans hu (by norm_num))
  obtain ⟨a1, a2, a3, a4⟩ := strconv.FormatUint_spec a (lt_trans ha (by norm_num))
  obtain ⟨n1, n2, n3, n4⟩ := strconv.FormatUint_spec n (lt_trans hn (by norm_num))
  have hw := hugeWid_eq
  have e0 := advance_append ['S', 'T', 'E', 'A', 'M', '_']
    (strconv.FormatUint u ++ ':' :: (strconv.FormatUint a ++ ':' :: strconv.FormatUint n)) 0
    (by simp only [List.length_cons, List.length_nil]; omega)
  have e1 := verbUint32_digits (strconv.FormatUint u)
    (':' :: (strconv.FormatUint a ++ ':' :: strconv.FormatUint n)) 6 u1 u2
    (by rw [u4]; exact hu) (not_decimal_head_colon _) (by omega)
  have c1 := advance_append [':'] (strconv.FormatUint a ++ ':' :: strconv.FormatUint n)
    (6 + (strconv.FormatUint u).length) (by simp only [List.length_cons, List.length_nil]; omega)
  have e2 := verbUint32_digits (strconv.FormatUint a) (':' :: strconv.FormatUint n)
    (6 + (strconv.FormatUint u).length + 1) a1 a2 (by rw [a4]; exact ha)
    (not_decimal_head_colon _) (by omega)
  have c2 := advance_append [':'] (strconv.FormatUint n)
    (6 + (strconv.FormatUint u).length + 1 + (strconv.FormatUint a).length)
    (by simp only [List.length_cons, List.length_nil]; omega)
  have e3 := verbUint32_digits (strconv.FormatUint n) []
    (6 + (strconv.FormatUint u).length + 1 + (strconv.FormatUint a).length + 1) n1 n2
    (by rw [n4]; exact hn) not_decimal_head_nil (by omega)
  rw [u4] at e1
  rw [a4] at e2
  rw [n4] at e3
  have hstr : "STEAM_".toList ++ strconv.FormatUint u ++ ':' :: strconv.FormatUint a
      ++ ':' :: strconv.FormatUint n = ['S', 'T', 'E', 'A', 'M', '_'] ++
        (strconv.FormatUint u ++ ':' :: (strconv.FormatUint a ++ ':' :: strconv.FormatUint n)) := by
    have hlit : "STEAM_".toList = ['S', 'T', 'E', 'A', 'M', '_'] := by decide
    rw [hlit]
    simp only [List.append_assoc, List.cons_append]
  simp only [List.append_nil, List.length_cons, List.length_nil, Nat.zero_add,
    List.singleton_append] at e0 e1 c1 e2 c2 e3
  rw [hstr]
  simp only [SscanfSTEAM, e0, e1, c1, e2, c2, e3]

/-- Reading back a rendered `uint32` value with the format `[U:1:%d]`. -/
theorem SscanfU1_render (a : Nat) (ha : a < 2 ^ 32) :
    SscanfU1 ("[U:1:".toList ++ strconv.FormatUint a ++ [']']) = .ok a := by
  obtain ⟨a1, a2, a3, a4⟩ := strconv.FormatUint_spec a (lt_trans ha (by norm_num))
  have hw := hugeWid_eq
  have e0 := advance_append ['[', 'U', ':', '1', ':'] (strconv.FormatUint a ++ [']']) 0
    (by simp only [List.length_cons, List.length_nil]; omega)
  have e1 := verbUint32_digits (strconv.FormatUint a) [']'] 5 a1 a2
    (by rw [a4]; exact ha) (not_decimal_head_bracket _) (by omega)
  have c1 := advance_append [']'] [] (5 + (strconv.FormatUint a).length)
    (by simp only [List.length_cons, List.length_nil]; omega)
  rw [a4] at e1
  have hstr : "[U:1:".toList ++ strconv.FormatUint a ++ [']'] =
      ['[', 'U', ':', '1', ':'] ++ (strconv.FormatUint a ++ [']']) := by
    have hlit : "[U:1:".toList = ['[', 'U', ':', '1', ':'] := by decide
    rw [hlit]
    simp only [List.append_assoc, List.cons_append]
  simp only [List.append_nil, List.length_cons, List.length_nil, Nat.zero_add,
    List.singleton_append] at e0 e1 c1
  rw [hstr]
  simp only [SscanfU1, e0, e1, c1]

end fmt

/-! ## Bit fields of a canonical identifier -/

theorem low32_or (k a : Nat) (ha : a < 2 ^ 32) : (2 ^ 32 * k ||| a) &&& 0xFFFFFFFF = a := by
  rw [← Nat.mul_add_lt_is_or ha k]
  show (2 ^ 32 * k + a) &&& (2 ^ 32 - 1) = a
  rw [Nat.and_pow_two_sub_one_eq_mod]
  omega

/-- The packed value written with sums: the four fields do not overlap. -/
theorem canonical_eq_add (u a : Nat) (ha : a < 2 ^ 32) :
    (u <<< 56) ||| 2 ^ 52 ||| 2 ^ 32 ||| a = u * 2 ^ 56 + 2 ^ 52 + 2 ^ 32 + a := by
  have s1 := Nat.mul_add_lt_is_or (i := 56) (b := 2 ^ 52) (by norm_num) u
  have s2 := Nat.mul_add_lt_is_or (i := 52) (b := 2 ^ 32) (by norm_num) (16 * u + 1)
  have s3 := Nat.mul_add_lt_is_or (i := 32) (b := a) ha (2 ^ 20 * (16 * u + 1) + 1)
  have e1 : u <<< 56 = 2 ^ 56 * u := by rw [Nat.shiftLeft_eq, Nat.mul_comm]
  have e2 : 2 ^ 56 * u + 2 ^ 52 = 2 ^ 52 * (16 * u + 1) := by ring
  have e3 : 2 ^ 52 * (16 * u + 1) + 2 ^ 32 = 2 ^ 32 * (2 ^ 20 * (16 * u + 1) + 1) := by ring
  rw [e1, ← s1, e2, ← s2, e3, ← s3]
  ring

theorem canonical_lt (u a : Nat) (hu : u < 256) (ha : a < 2 ^ 32) :
    (u <<< 56) ||| 2 ^ 52 ||| 2 ^ 32 ||| a < 2 ^ 64 := by
  rw [canonical_eq_add u a ha]
  norm_num
  omega

theorem canonical_universe (u a : Nat) (hu : u < 256) (ha : a < 2 ^ 32) :
    (((u <<< 56) ||| 2 ^ 52 ||| 2 ^ 32 ||| a) >>> 56) &&& 0xFF = u := by
  rw [canonical_eq_add u a ha, Nat.shiftRight_eq_div_pow]
  show (u * 2 ^ 56 + 2 ^ 52 + 2 ^ 32 + a) / 2 ^ 56 &&& (2 ^ 8 - 1) = u
  rw [Nat.and_pow_two_sub_one_eq_mod]
  norm_num
  omega

theorem canonical_accountID (u a : Nat) (ha : a < 2 ^ 32) :
    ((u <<< 56) ||| 2 ^ 52 ||| 2 ^ 32 ||| a) &&& 0xFFFFFFFF = a := by
  rw [canonical_eq_add u a ha]
  show (u * 2 ^ 56 + 2 ^ 52 + 2 ^ 32 + a) &&& (2 ^ 32 - 1) = a
  rw [Nat.and_pow_two_sub_one_eq_mod]
  norm_num
  omega

/-- Decoding the rendering of any three `uint32` fields. -/
theorem SteamIDToSteamID64_render (u a n : Nat) (hu : u < 2 ^ 32) (ha : a < 2 ^ 32)
    (hn : n < 2 ^ 32) :
    SteamIDToSteamID64 ("STEAM_".toList ++ strconv.FormatUint u ++ ':' :: strconv.FormatUint a
      ++ ':' :: strconv.FormatUint n) =
      (strconv.FormatUint (((u <<< 56) % 2 ^ 64) ||| (1 <<< 52) ||| (1 <<< 32)
        ||| ((n * 2 + a) % 2 ^ 32)), none) := by
  simp only [SteamIDToSteamID64, fmt.SscanfSTEAM_render u a n hu ha hn]

theorem parseUint_error_of_head (c : Char) (rest : List Char) (hc : strconv.isDecimal c = false) :
    strconv.ParseUint (c :: rest) = .error .ErrSyntax := by
  simp [strconv.ParseUint, strconv.parseUintLoop, hc]

theorem hasPrefix_cons (input : List Char) (c : Char) (cs : List Char)
    (h : strings.HasPrefix input (c :: cs) = true) : ∃ rest, input = c :: rest := by
  cases input with
  | nil => simp [strings.HasPrefix] at h
  | cons x xs =>
    simp only [strings.HasPrefix, List.isPrefixOf, Bool.and_eq_true, beq_iff_eq] at h
    exact ⟨xs, by rw [h.1]⟩

/-! ## What `fmt.Sscanf` accepts -/

namespace fmt

theorem advance_inv (lit : List Char) (s t : ss) (h : ss.advance s lit = .ok t) :
    s.rs = lit ++ t.rs ∧ t.count = s.count + lit.length := by
  induction lit generalizing s with
  | nil =>
    simp only [ss.advance, Except.ok.injEq] at h
    rw [h]
    exact ⟨rfl, rfl⟩
  | cons f fs ih =>
    obtain ⟨rs, count⟩ := s
    by_cases hc : count ≥ hugeWid
    · simp [ss.advance, ss.getRune, hc] at h
    · cases rs with
      | nil => simp [ss.advance, ss.getRune, hc] at h
      | cons r rest =>
        simp only [ss.advance, ss.getRune, hc, if_false] at h
        by_cases hf : f = r
        · simp only [hf, if_true] at h
          obtain ⟨h1, h2⟩ := ih _ h
          simp only at h1 h2 ⊢
          refine ⟨by rw [h1, hf]; rfl, ?_⟩
          rw [h2, List.length_cons]
          omega
        · simp [hf] at h

theorem skipSpaceLoop_inv (rs : List Char) (count : Nat) (t : ss)
    (h : skipSpaceLoop rs count = .ok t) :
    ∃ w, rs = w ++ t.rs ∧ Blanks w ∧ t.count = count + w.length := by
  induction rs generalizing count with
  | nil =>
    simp only [skipSpaceLoop, Except.ok.injEq] at h
    exact ⟨[], by rw [← h]; rfl, by simp [Blanks], by rw [← h]; rfl⟩
  | cons r rs ih =>
    simp only [skipSpaceLoop] at h
    split at h
    · simp only [Except.ok.injEq] at h
      exact ⟨[], by rw [← h]; rfl, by simp [Blanks], by rw [← h]; rfl⟩
    · split at h
      · simp at h
      · rename_i hnl
        split at h
        · rename_i hsp
          obtain ⟨w, hw, hb, hcount⟩ := ih _ h
          refine ⟨r :: w, by rw [hw]; rfl, ?_, by rw [hcount, List.length_cons]; omega⟩
          intro c hc
          rcases List.mem_cons.1 hc with rfl | hc
          · exact ⟨hsp, hnl⟩
          · exact hb c hc
        · simp only [Except.ok.injEq] at h
          exact ⟨[], by rw [← h]; rfl, by simp [Blanks], by rw [← h]; rfl⟩

theorem acceptLoop_inv (rs : List Char) (count : Nat) :
    rs = (acceptLoop rs count).1 ++ (acceptLoop rs count).2.rs ∧
      (∀ c ∈ (acceptLoop rs count).1, strconv.isDecimal c = true) ∧
      (acceptLoop rs count).2.count = count + (acceptLoop rs count).1.length ∧
      ((acceptLoop rs count).1 ≠ [] → (acceptLoop rs count).2.count ≤ hugeWid) ∧
      (hugeWid ≤ (acceptLoop rs count).2.count ∨
        ∀ c, (acceptLoop rs count).2.rs.head? = some c → strconv.isDecimal c = false) := by
  induction rs generalizing count with
  | nil => simp [acceptLoop]
  | cons r rs ih =>
    simp only [acceptLoop]
    split
    · rename_i hge
      exact ⟨by simp, by simp, by simp, by simp, Or.inl hge⟩
    · rename_i hlt
      split
      · rename_i hd
        obtain ⟨h1, h2, h3, h4, h5⟩ := ih (count + 1)
        refine ⟨by simp only [List.cons_append]; rw [← h1], ?_, ?_, ?_, h5⟩
        · intro c hc
          rcases List.mem_cons.1 hc with rfl | hc
          · exact hd
          · exact h2 c hc
        · simp only [List.length_cons]
          omega
        · intro _
          by_cases he : (acceptLoop rs (count + 1)).1 = []
          · have h3b := h3
            rw [he] at h3b
            simp only [List.length_nil] at h3b
            simp only
            omega
          · exact h4 he
      · rename_i hd
        refine ⟨by simp, by simp, by simp, by simp, Or.inr ?_⟩
        intro c hc
        simp only [List.head?_cons, Option.some.injEq] at hc
        subst hc
        simpa using hd

theorem scanUint_inv (s t : ss) (i : Nat) (h : s.scanUint 32 = .ok (i, t)) :
    ∃ w tok, s.rs = w ++ tok ++ t.rs ∧ Blanks w ∧ Uint32Field tok ∧
      strconv.decimalValue tok = i ∧ t.count = s.count + w.length + tok.length ∧
      t.count ≤ hugeWid ∧
      (hugeWid ≤ t.count ∨ ∀ c, t.rs.head? = some c → strconv.isDecimal c = false) := by
  simp only [ss.scanUint, ss.SkipSpace] at h
  split at h
  · simp at h
  · rename_i s1 hskip
    obtain ⟨w, hw, hb, hwc⟩ := skipSpaceLoop_inv _ _ _ hskip
    split at h
    · simp at h
    · split at h
      · obtain ⟨ha1, ha2, ha3, ha4, ha5⟩ := acceptLoop_inv s1.rs s1.count
        split at h
        · simp at h
        · rename_i v hparse
          split at h
          · simp at h
          · rename_i hfit
            simp only [Except.ok.injEq, Prod.mk.injEq] at h
            obtain ⟨rfl, rfl⟩ := h
            obtain ⟨⟨hne, hd, _⟩, hv⟩ := (strconv.ParseUint_ok_iff _ _).1 hparse
            rw [fits32] at hfit
            have hlt : v < 2 ^ 32 := by
              have := Nat.mod_lt v (show 2 ^ 32 > 0 by norm_num)
              simp only [ne_eq, not_not] at hfit
              omega
            refine ⟨w, (acceptLoop s1.rs s1.count).1, ?_, hb,
              ⟨hne, hd, by rw [hv]; exact hlt⟩, hv, ?_, ha4 hne, ha5⟩
            · rw [hw, List.append_assoc, ← ha1]
            · rw [ha3, hwc]
      · simp at h

theorem blanks_append (w1 w2 : List Char) (h1 : Blanks w1) (h2 : Blanks w2) :
    Blanks (w1 ++ w2) := by
  intro c hc
  rcases List.mem_append.1 hc with hc | hc
  · exact h1 c hc
  · exact h2 c hc

theorem verbUint32_inv (s t : ss) (i : Nat) (h : s.verbUint32 = .ok (i, t)) :
    ∃ w tok, s.rs = w ++ tok ++ t.rs ∧ Blanks w ∧ Uint32Field tok ∧
      strconv.decimalValue tok = i ∧ t.count = s.count + w.length + tok.length ∧
      t.count ≤ hugeWid ∧
      (hugeWid ≤ t.count ∨ ∀ c, t.rs.head? = some c → strconv.isDecimal c = false) := by
  simp only [ss.verbUint32, ss.SkipSpace] at h
  split at h
  · simp at h
  · rename_i s1 hskip
    obtain ⟨w1, hw1, hb1, hc1⟩ := skipSpaceLoop_inv _ _ _ hskip
    obtain ⟨w2, tok, hw2, hb2, hf, hv, hc2, hle, hmax⟩ := scanUint_inv _ _ _ h
    refine ⟨w1 ++ w2, tok, by rw [hw1, hw2]; simp only [List.append_assoc],
      blanks_append _ _ hb1 hb2, hf, hv, ?_, hle, hmax⟩
    rw [hc2, hc1, List.length_append]
    omega

/-- Whatever `Sscanf` accepts for `STEAM_%d:%d:%d` has a reading as three fields, and the three
values are the values of the fields. -/
theorem SscanfSTEAM_inv (str : List Char) (x y z : Nat) (h : SscanfSTEAM str = .ok (x, y, z)) :
    ∃ w1 u w2 a w3 n rest, LegacyFields str w1 u w2 a w3 n rest ∧
      strconv.decimalValue u = x ∧ strconv.decimalValue a = y ∧ strconv.decimalValue n = z := by
  have hlit : "STEAM_".toList = ['S', 'T', 'E', 'A', 'M', '_'] := by decide
  simp only [SscanfSTEAM] at h
  split at h
  · simp at h
  · rename_i s1 h0
    obtain ⟨r0, c0⟩ := advance_inv _ _ _ h0
    split at h
    · simp at h
    · rename_i v1 s2 h1
      obtain ⟨w1, u, r1, b1, f1, e1, c1, _, _⟩ := verbUint32_inv _ _ _ h1
      split at h
      · simp at h
      · rename_i s3 h2
        obtain ⟨r2, c2⟩ := advance_inv _ _ _ h2
        split at h
        · simp at h
        · rename_i v2 s4 h3
          obtain ⟨w2, a, r3, b2, f2, e2, c3, _, _⟩ := verbUint32_inv _ _ _ h3
          split at h
          · simp at h
          · rename_i s5 h4
            obtain ⟨r4, c4⟩ := advance_inv _ _ _ h4
            split at h
            · simp at h
            · rename_i v3 s6 h5
              obtain ⟨w3, n, r5, b3, f3, e3, c5, hle, hmax⟩ := verbUint32_inv _ _ _ h5
              simp only [Except.ok.injEq, Prod.mk.injEq] at h
              obtain ⟨rfl, rfl, rfl⟩ := h
              have hlen : s6.count = acceptedLength w1 u w2 a w3 n := by
                simp only [List.length_cons, List.length_nil] at c0 c2 c4
                simp only [acceptedLength]
                omega
              refine ⟨w1, u, w2, a, w3, n, s6.rs,
                ⟨b1, f1, b2, f2, b3, f3, ?_, by rw [← hlen]; exact hle, ?_⟩, e1, e2, e3⟩
              · simp only at r0
                rw [r0, r1, r2, r3, r4, r5, hlit]
                simp only [List.append_assoc, List.cons_append, List.nil_append]
              · rcases hmax with hmax | hmax
                · exact Or.inl (by rw [← hlen]; omega)
                · exact Or.inr hmax

theorem skipSpaceLoop_blanks (w : List Char) (d : Char) (rest : List Char) (count : Nat)
    (hb : Blanks w) (hd : strconv.isDecimal d = true) (hc : count + w.length < hugeWid) :
    skipSpaceLoop (w ++ d :: rest) count = .ok ⟨d :: rest, count + w.length⟩ := by
  induction w generalizing count with
  | nil => exact skipSpaceLoop_digit d rest count hd
  | cons x w ih =>
    simp only [List.length_cons] at hc
    obtain ⟨hsp, hnl⟩ := hb x (List.mem_cons_self _ _)
    have hlt : ¬ count ≥ hugeWid := by omega
    simp only [List.cons_append, skipSpaceLoop, hlt, if_false, hnl, hsp, if_true,
      List.append_eq]
    rw [ih (count + 1) (fun c h => hb c (List.mem_cons_of_mem _ h)) (by omega)]
    simp only [List.length_cons]
    congr 2
    omega

theorem acceptLoop_digits_limit (ds rest : List Char) (count : Nat)
    (hd : ∀ c ∈ ds, strconv.isDecimal c = true) (hcount : count + ds.length ≤ hugeWid)
    (hmax : count + ds.length = hugeWid ∨
      ∀ c, rest.head? = some c → strconv.isDecimal c = false) :
    acceptLoop (ds ++ rest) count = (ds, ⟨rest, count + ds.length⟩) := by
  induction ds generalizing count with
  | nil =>
    cases rest with
    | nil => rfl
    | cons r rs =>
      simp only [List.nil_append, acceptLoop, List.length_nil, Nat.add_zero] at hmax ⊢
      split
      · rfl
      · rename_i hlt
        rcases hmax with hmax | hmax
        · omega
        · simp [hmax r rfl]
  | cons d ds ih =>
    have hd0 : strconv.isDecimal d = true := hd d (List.mem_cons_self _ _)
    simp only [List.length_cons] at hcount hmax
    have hlt : ¬ count ≥ hugeWid := by omega
    simp only [List.cons_append, acceptLoop, hlt, if_false, hd0, if_true, List.append_eq]
    rw [ih (count + 1) (fun c h => hd c (List.mem_cons_of_mem _ h)) (by omega)
      (by rcases hmax with hmax | hmax
          · exact Or.inl (by omega)
          · exact Or.inr hmax)]
    simp only [List.length_cons]
    congr 2
    omega

/-- Scanning `%d` into a `uint32` where the input starts with blanks `w` and a field `ds`
that ends at the read limit or before something that is not a digit. -/
theorem verbUint32_blanks (w ds rest : List Char) (count : Nat) (hb : Blanks w)
    (hf : Uint32Field ds) (hcount : count + w.length + ds.length ≤ hugeWid)
    (hmax : count + w.length + ds.length = hugeWid ∨
      ∀ c, rest.head? = some c → strconv.isDecimal c = false) :
    ss.verbUint32 ⟨w ++ ds ++ rest, count⟩ =
      .ok (strconv.decimalValue ds, ⟨rest, count + w.length + ds.length⟩) := by
  obtain ⟨hne, hd, hv⟩ := hf
  obtain ⟨d, ds1, rfl⟩ := List.exists_cons_of_ne_nil hne
  have hd0 : strconv.isDecimal d = true := hd d (List.mem_cons_self _ _)
  simp only [List.length_cons] at hcount
  have hlen : count + w.length < hugeWid := by omega
  have hparse : strconv.ParseUint (d :: ds1) = .ok (strconv.decimalValue (d :: ds1)) :=
    (strconv.ParseUint_ok_iff _ _).2 ⟨⟨hne, hd, lt_trans hv (by norm_num)⟩, rfl⟩
  have hskip1 := skipSpaceLoop_blanks w d (ds1 ++ rest) count hb hd0 hlen
  have hskip2 := skipSpaceLoop_digit d (ds1 ++ rest) (count + w.length) hd0
  have hacc := acceptLoop_digits_limit (d :: ds1) rest (count + w.length) hd
    (by simp only [List.length_cons]; omega) hmax
  simp only [List.cons_append] at hacc
  simp only [ss.verbUint32, ss.SkipSpace, ss.scanUint, List.append_assoc, List.cons_append,
    hskip1, hskip2, ss.getRune, Nat.not_le.2 hlen, if_false, hd0, if_true, hacc, hparse, fits32,
    Nat.mod_eq_of_lt hv, ne_eq, not_true_eq_false, Nat.add_assoc]

/-- Every text with a reading as three fields is accepted by `Sscanf` for `STEAM_%d:%d:%d`,
with the values of the fields, whatever follows the third field. -/
theorem SscanfSTEAM_fields (s w1 u w2 a w3 n rest : List Char)
    (h : LegacyFields s w1 u w2 a w3 n rest) :
    SscanfSTEAM s =
      .ok (strconv.decimalValue u, strconv.decimalValue a, strconv.decimalValue n) := by
  obtain ⟨b1, f1, b2, f2, b3, f3, hs, hle, hmax⟩ := h
  have hw := hugeWid_eq
  have lu : 0 < u.length := List.length_pos.2 f1.1
  have la : 0 < a.length := List.length_pos.2 f2.1
  have ln : 0 < n.length := List.length_pos.2 f3.1
  simp only [acceptedLength] at hle hmax
  have e0 := advance_append ['S', 'T', 'E', 'A', 'M', '_']
    (w1 ++ u ++ ':' :: (w2 ++ a ++ ':' :: (w3 ++ n ++ rest))) 0
    (by simp only [List.length_cons, List.length_nil]; omega)
  have e1 := verbUint32_blanks w1 u (':' :: (w2 ++ a ++ ':' :: (w3 ++ n ++ rest))) 6 b1 f1
    (by omega) (Or.inr (not_decimal_head_colon _))
  have c1 := advance_append [':'] (w2 ++ a ++ ':' :: (w3 ++ n ++ rest))
    (6 + w1.length + u.length) (by simp only [List.length_cons, List.length_nil]; omega)
  have e2 := verbUint32_blanks w2 a (':' :: (w3 ++ n ++ rest)) (6 + w1.length + u.length + 1)
    b2 f2 (by omega) (Or.inr (not_decimal_head_colon _))
  have c2 := advance_append [':'] (w3 ++ n ++ rest)
    (6 + w1.length + u.length + 1 + w2.length + a.length)
    (by simp only [List.length_cons, List.length_nil]; omega)
  have e3 := verbUint32_blanks w3 n rest
    (6 + w1.length + u.length + 1 + w2.length + a.length + 1) b3 f3 (by omega) hmax
  have hlit : "STEAM_".toList = ['S', 'T', 'E', 'A', 'M', '_'] := by decide
  simp only [List.length_cons, List.length_nil, Nat.zero_add, List.singleton_append]
    at e0 c1 c2
  rw [hs, hlit]
  simp only [SscanfSTEAM, e0, e1, c1, e2, c2, e3]

end fmt

/-! ## Pattern search -/

namespace regexp

theorem matchAt_none_of_not_mem (lit : List Char) (cls : Char → Bool) (s : List Char) (c : Char)
    (hc : c ∈ lit) (hs : c ∉ s) : matchAt lit cls s = none := by
  unfold matchAt
  split
  · rename_i hp
    exact absurd ((List.isPrefixOf_iff_prefix.1 hp).subset hc) hs
  · rfl

/-- A text without some rune of the literal part has no match. -/
theorem FindStringSubmatch_nil_of_not_mem (lit : List Char) (cls : Char → Bool) (s : List Char)
    (c : Char) (hc : c ∈ lit) (hs : c ∉ s) : FindStringSubmatch lit cls s = [] := by
  induction s with
  | nil => rfl
  | cons x xs ih =>
    simp only [FindStringSubmatch, matchAt_none_of_not_mem lit cls (x :: xs) c hc hs]
    exact ih (fun h => hs (List.mem_cons_of_mem _ h))

/-- A text that starts with the literal part followed by a non-empty run `g` of class runes,
where the run is all of the rest, matches at its start and the group is `g`. -/
theorem FindStringSubmatch_lit_append (lit : List Char) (cls : Char → Bool) (g : List Char)
    (hg : g ≠ []) (hcls : ∀ c ∈ g, cls c = true) :
    FindStringSubmatch lit cls (lit ++ g) = [lit ++ g, g] := by
  have hm : matchAt lit cls (lit ++ g) = some [lit ++ g, g] := by
    have htake : List.takeWhile cls g = g := List.takeWhile_eq_self_iff.2 hcls
    have hpre : lit.isPrefixOf (lit ++ g) = true :=
      List.isPrefixOf_iff_prefix.2 (List.prefix_append _ _)
    simp only [matchAt, hpre, if_true, List.drop_left, htake, hg, if_false]
  cases hl : lit ++ g with
  | nil =>
    have := List.append_eq_nil.1 hl
    exact absurd this.2 hg
  | cons x xs =>
    rw [hl] at hm
    simp only [FindStringSubmatch, hm]

/-- The result of the search is the nil slice or a pair `[whole, group]`. -/
theorem FindStringSubmatch_shape (lit : List Char) (cls : Char → Bool) (s : List Char) :
    FindStringSubmatch lit cls s = [] ∨
      ∃ g, g ≠ [] ∧ (∀ c ∈ g, cls c = true) ∧ FindStringSubmatch lit cls s = [lit ++ g, g] ∧
        ∃ pre post, s = pre ++ lit ++ g ++ post := by
  induction s with
  | nil => exact Or.inl rfl
  | cons x xs ih =>
    simp only [FindStringSubmatch]
    cases hm : matchAt lit cls (x :: xs) with
    | none =>
      rcases ih with h | ⟨g, h1, h2, h3, pre, post, h4⟩
      · exact Or.inl h
      · exact Or.inr ⟨g, h1, h2, h3, x :: pre, post, by rw [h4]; simp⟩
    | some m =>
      right
      by_cases hp : lit.isPrefixOf (x :: xs) = true
      · by_cases hg : List.takeWhile cls (List.drop lit.length (x :: xs)) = []
        · simp [matchAt, hp, hg] at hm
        · simp only [matchAt, hp, if_true, hg, if_false, Option.some.injEq] at hm
          refine ⟨_, hg, fun c hc => (List.mem_takeWhile_imp hc), hm.symm, [], ?_⟩
          obtain ⟨t, ht⟩ := List.isPrefixOf_iff_prefix.1 hp
          refine ⟨List.dropWhile cls t, ?_⟩
          rw [← ht, List.drop_left]
          simp only [List.nil_append, List.append_assoc, List.takeWhile_append_dropWhile]
      · simp [matchAt, hp] at hm

end regexp

/-! ## The vanity lookup and the classifier -/

theorem getSteamIDFromVanity_requests (s : Steam) (net : Remote) (vanity : List Char) :
    (s.getSteamIDFromVanity net vanity).2 =
      [⟨SteamWebAPIISteamUser ++ "ResolveVanityURL/v1".toList, s.Key, vanity, "json".toList⟩] := by
  unfold Steam.getSteamIDFromVanity
  simp only
  split
  · rfl
  · split
    · rfl
    · split <;> rfl

theorem getSteamIDFromVanity_ok (s : Steam) (net : Remote) (vanity : List Char) (resp : Response)
    (b : List Char)
    (hget : net.Get ⟨SteamWebAPIISteamUser ++ "ResolveVanityURL/v1".toList, s.Key, vanity,
      "json".toList⟩ = .ok resp)
    (hstatus : resp.StatusCode = 200) (hbody : resp.Body = .ok b) :
    (s.getSteamIDFromVanity net vanity).1 = (net.steamid b, none) := by
  simp only [Steam.getSteamIDFromVanity, hget, HandleStatus, hstatus, if_true, hbody]

theorem getSteamIDFromVanity_error (s : Steam) (net : Remote) (vanity : List Char) (e : Error)
    (h : (s.getSteamIDFromVanity net vanity).1.2 = some e) :
    (s.getSteamIDFromVanity net vanity).1 = ([], some e) := by
  unfold Steam.getSteamIDFromVanity at h ⊢
  simp only at h ⊢
  split at h
  · simp only [Option.some.injEq] at h
    rw [h]
  · split at h
    · simp only [Option.some.injEq] at h
      rw [h]
    · split at h
      · simp only [Option.some.injEq] at h
        rw [h]
      · simp at h

/-- An input that is no numeral and has none of the three prefixes goes to the vanity lookup. -/
theorem DetermineSteamID_vanity (s : Steam) (net : Remote) (input : List Char)
    (hnum : ¬ strconv.isUint64Numeral input)
    (h3 : strings.HasPrefix input "[U:1:".toList = false)
    (hS : strings.HasPrefix input "STEAM_".toList = false)
    (hURL : strings.HasPrefix input SteamCommunityAPI = false) :
    s.DetermineSteamID net input = s.getSteamIDFromVanity net input := by
  obtain ⟨e, he⟩ := strconv.ParseUint_error_of_not_numeral input hnum
  simp only [Steam.DetermineSteamID, he, h3, hS, hURL, if_false, Bool.false_eq_true]

/-- An input that is no numeral, has neither structural prefix and has the profile-URL prefix
goes to the URL extractor, whose string is returned with a nil error. -/
theorem DetermineSteamID_url (s : Steam) (net : Remote) (input : List Char)
    (hURL : strings.HasPrefix input SteamCommunityAPI = true) :
    s.DetermineSteamID net input =
      (((s.getSteamIDFromURL net input).1, none), (s.getSteamIDFromURL net input).2) := by
  have hA : SteamCommunityAPI = 'h' :: "ttps://steamcommunity.com/".toList := by decide
  have hin := hURL
  rw [hA] at hin
  obtain ⟨rest, rfl⟩ := hasPrefix_cons _ _ _ hin
  have he := parseUint_error_of_head 'h' rest (by decide)
  have h3 : strings.HasPrefix ('h' :: rest) "[U:1:".toList = false := by
    have hU : "[U:1:".toList = '[' :: ['U', ':', '1', ':'] := by decide
    rw [hU]
    simp [strings.HasPrefix, List.isPrefixOf]
  have hS : strings.HasPrefix ('h' :: rest) "STEAM_".toList = false := by
    have hU : "STEAM_".toList = 'S' :: ['T', 'E', 'A', 'M', '_'] := by decide
    rw [hU]
    simp [strings.HasPrefix, List.isPrefixOf]
  simp only [Steam.DetermineSteamID, he, h3, hS, hURL, if_true, if_false, Bool.false_eq_true]

theorem vanityLit_eq : regexp.vanityLit =
    ['h', 't', 't', 'p', 's', ':', '/', '/', 's', 't', 'e', 'a', 'm', 'c', 'o', 'm', 'm', 'u',
      'n', 'i', 't', 'y', '.', 'c', 'o', 'm', '/', 'i', 'd', '/'] := by
  decide

theorem ID64Lit_eq : regexp.ID64Lit =
    ['h', 't', 't', 'p', 's', ':', '/', '/', 's', 't', 'e', 'a', 'm', 'c', 'o', 'm', 'm', 'u',
      'n', 'i', 't', 'y', '.', 'c', 'o', 'm', '/', 'p', 'r', 'o', 'f', 'i', 'l', 'e', 's', '/'] := by
  decide

theorem SteamCommunityAPI_eq : SteamCommunityAPI =
    ['h', 't', 't', 'p', 's', ':', '/', '/', 's', 't', 'e', 'a', 'm', 'c', 'o', 'm', 'm', 'u',
      'n', 'i', 't', 'y', '.', 'c', 'o', 'm', '/'] := by
  decide

/-- In a URL `https://steamcommunity.com/id/<name>` whose name has no slash, the pattern for
`/profiles/<digits>` matches nowhere. -/
theorem ID64_no_match_in_id_url (name : List Char) (hslash : '/' ∉ name) :
    regexp.FindStringSubmatch regexp.ID64Lit regexp.digit (regexp.vanityLit ++ name) = [] := by
  have hnil := regexp.FindStringSubmatch_nil_of_not_mem regexp.ID64Lit regexp.digit name '/'
    (by decide) hslash
  rw [ID64Lit_eq] at hnil ⊢
  rw [vanityLit_eq]
  simp [regexp.FindStringSubmatch, regexp.matchAt, List.isPrefixOf, hnil]

theorem exactLegacyShape_chars (s : List Char) (h : ExactLegacyShape s) :
    ∀ c ∈ s, c ∈ "STEAM_".toList ∨ c = ':' ∨ strconv.isDecimal c = true := by
  obtain ⟨u, a, n, hu, ha, hn, rfl⟩ := h
  intro c hc
  simp only [List.mem_append, List.mem_cons] at hc
  rcases hc with ((hc | hc) | hc | hc) | hc | hc
  · exact Or.inl hc
  · exact Or.inr (Or.inr (hu.2 c hc))
  · exact Or.inr (Or.inl hc)
  · exact Or.inr (Or.inr (ha.2 c hc))
  · exact Or.inr (Or.inl hc)
  · exact Or.inr (Or.inr (hn.2 c hc))

/-! ## The claims -/

/-- C1: an input that is, in full, an unsigned 64-bit decimal numeral is returned unchanged
(leading zeros included) with a nil error; the result is the same for every remote and no
request is issued. -/
theorem DetermineSteamID_numeral (s : Steam) (net : Remote) (input : List Char)
    (h : strconv.isUint64Numeral input) :
    s.DetermineSteamID net input = ((input, none), []) := by
  have hp := (strconv.ParseUint_ok_iff input (strconv.decimalValue input)).2 ⟨h, rfl⟩
  simp only [Steam.DetermineSteamID, hp]

theorem DetermineSteamID_numeral_witness :
    strconv.isUint64Numeral "76561197960287930".toList ∧
      Steam.DetermineSteamID ⟨[], [], []⟩ Remote.forbidden "76561197960287930".toList =
        (("76561197960287930".toList, none), []) :=
  ⟨⟨by decide, by decide, by decide⟩,
    DetermineSteamID_numeral ⟨[], [], []⟩ Remote.forbidden _ ⟨by decide, by decide, by decide⟩⟩

/-- C2: for every accountID below `2 ^ 32`, decoding the compact rendering of
`0x0110000100000000 | accountID` succeeds and gives back the decimal numeral of that value. -/
theorem SteamID3_roundtrip (accountID : Nat) (h : accountID < 2 ^ 32) :
    SteamID3ToSteamID64 (SteamID64ToSteamID3 (0x0110000100000000 ||| accountID)) =
      (strconv.FormatUint (0x0110000100000000 ||| accountID), none) := by
  have e : (0x0110000100000000 : Nat) = 2 ^ 32 * 17825793 := by norm_num
  have hlow : (0x0110000100000000 ||| accountID) &&& 0xFFFFFFFF = accountID := by
    rw [e]
    exact low32_or _ _ h
  simp only [SteamID64ToSteamID3, hlow, SteamID3ToSteamID64, fmt.SscanfU1_render accountID h]

theorem SteamID3_roundtrip_witness :
    (12345 : Nat) < 2 ^ 32 ∧
      SteamID3ToSteamID64 (SteamID64ToSteamID3 (0x0110000100000000 ||| 12345)) =
        (strconv.FormatUint (0x0110000100000000 ||| 12345), none) :=
  ⟨by decide, SteamID3_roundtrip 12345 (by decide)⟩

/-- C3: for every universe `u` in 0..255 and accountID below `2 ^ 32`, with
`canonical = (u << 56) | 2^52 | 2^32 | accountID`: `SteamID64ToSteamID` renders
`STEAM_<u>:<accountID mod 2>:<accountID div 2>`, scanning that text recovers the universe `u`,
the authServerFlag `accountID mod 2` and the accountNumber `accountID div 2`, and
`SteamIDToSteamID64` of it succeeds and returns the decimal numeral of `canonical`. -/
theorem SteamID_roundtrip (u accountID : Nat) (hu : u < 256) (h : accountID < 2 ^ 32) :
    SteamID64ToSteamID ((u <<< 56) ||| 2 ^ 52 ||| 2 ^ 32 ||| accountID) =
      "STEAM_".toList ++ strconv.FormatUint u ++ ':' :: strconv.FormatUint (accountID % 2)
        ++ ':' :: strconv.FormatUint (accountID / 2) ∧
    fmt.SscanfSTEAM (SteamID64ToSteamID ((u <<< 56) ||| 2 ^ 52 ||| 2 ^ 32 ||| accountID)) =
      .ok (u, accountID % 2, accountID / 2) ∧
    SteamIDToSteamID64 (SteamID64ToSteamID ((u <<< 56) ||| 2 ^ 52 ||| 2 ^ 32 ||| accountID)) =
      (strconv.FormatUint ((u <<< 56) ||| 2 ^ 52 ||| 2 ^ 32 ||| accountID), none) := by
  have hmod : (u <<< 56) % 2 ^ 64 = u <<< 56 := by
    apply Nat.mod_eq_of_lt
    rw [Nat.shiftLeft_eq]
    norm_num
    omega
  have hacc : (accountID / 2 * 2 + accountID % 2) % 2 ^ 32 = accountID := by
    omega
  have hnum : (accountID - accountID % 2) / 2 = accountID / 2 := by omega
  have hrender : SteamID64ToSteamID ((u <<< 56) ||| 2 ^ 52 ||| 2 ^ 32 ||| accountID) =
      "STEAM_".toList ++ strconv.FormatUint u ++ ':' :: strconv.FormatUint (accountID % 2)
        ++ ':' :: strconv.FormatUint (accountID / 2) := by
    simp only [SteamID64ToSteamID, canonical_universe u accountID hu h,
      canonical_accountID u accountID h, hnum]
  refine ⟨hrender, ?_, ?_⟩
  · rw [hrender]
    exact fmt.SscanfSTEAM_render u (accountID % 2) (accountID / 2) (by omega) (by omega)
      (by omega)
  · rw [hrender, SteamIDToSteamID64_render u (accountID % 2) (accountID / 2)
      (by omega) (by omega) (by omega), hmod, hacc, Nat.one_shiftLeft, Nat.one_shiftLeft]

theorem SteamID_roundtrip_witness :
    (1 <<< 56) ||| 2 ^ 52 ||| 2 ^ 32 ||| 22202 = 76561197960287930 ∧
      SteamID64ToSteamID 76561197960287930 = "STEAM_1:0:11101".toList ∧
      fmt.SscanfSTEAM "STEAM_1:0:11101".toList = .ok (1, 0, 11101) ∧
      SteamIDToSteamID64 "STEAM_1:0:11101".toList = ("76561197960287930".toList, none) ∧
      (SteamID64ToSteamID ((1 <<< 56) ||| 2 ^ 52 ||| 2 ^ 32 ||| 22202) =
        "STEAM_".toList ++ strconv.FormatUint 1 ++ ':' :: strconv.FormatUint (22202 % 2)
          ++ ':' :: strconv.FormatUint (22202 / 2) ∧
      fmt.SscanfSTEAM (SteamID64ToSteamID ((1 <<< 56) ||| 2 ^ 52 ||| 2 ^ 32 ||| 22202)) =
        .ok (1, 22202 % 2, 22202 / 2) ∧
      SteamIDToSteamID64 (SteamID64ToSteamID ((1 <<< 56) ||| 2 ^ 52 ||| 2 ^ 32 ||| 22202)) =
        (strconv.FormatUint ((1 <<< 56) ||| 2 ^ 52 ||| 2 ^ 32 ||| 22202), none)) :=
  ⟨by decide, by decide, rfl, by decide,
    SteamID_roundtrip 1 22202 (by decide) (by decide)⟩

/-- C4: for every universe `u` in 0..255, flag `a` in {0,1} and accountNumber `n` below `2^31`,
decoding the text `STEAM_<u>:<a>:<n>` (fields in decimal) succeeds and returns the decimal
numeral of `(u << 56) | 2^52 | 2^32 | (n*2 + a)`. -/
theorem SteamIDToSteamID64_fields (u a n : Nat) (hu : u < 256) (ha : a ≤ 1) (hn : n < 2 ^ 31) :
    SteamIDToSteamID64 ("STEAM_".toList ++ strconv.FormatUint u ++ ':' :: strconv.FormatUint a
      ++ ':' :: strconv.FormatUint n) =
      (strconv.FormatUint ((u <<< 56) ||| 2 ^ 52 ||| 2 ^ 32 ||| (n * 2 + a)), none) := by
  have hmod : (u <<< 56) % 2 ^ 64 = u <<< 56 := by
    apply Nat.mod_eq_of_lt
    rw [Nat.shiftLeft_eq]
    norm_num
    omega
  have hacc : (n * 2 + a) % 2 ^ 32 = n * 2 + a := by omega
  rw [SteamIDToSteamID64_render u a n (by omega) (by omega) (by omega), hmod, hacc,
    Nat.one_shiftLeft, Nat.one_shiftLeft]

theorem SteamIDToSteamID64_fields_witness :
    "STEAM_".toList ++ strconv.FormatUint 0 ++ ':' :: strconv.FormatUint 1
        ++ ':' :: strconv.FormatUint 4 = "STEAM_0:1:4".toList ∧
      strconv.FormatUint ((0 <<< 56) ||| 2 ^ 52 ||| 2 ^ 32 ||| (4 * 2 + 1))
        = "4503603922337801".toList ∧
      SteamIDToSteamID64 ("STEAM_".toList ++ strconv.FormatUint 0 ++ ':' :: strconv.FormatUint 1
        ++ ':' :: strconv.FormatUint 4) =
        (strconv.FormatUint ((0 <<< 56) ||| 2 ^ 52 ||| 2 ^ 32 ||| (4 * 2 + 1)), none) :=
  ⟨by decide, by decide, SteamIDToSteamID64_fields 0 1 4 (by decide) (by decide) (by decide)⟩

/-- C5: an input with the prefix `STEAM_` or `[U:1:` gets exactly the (value, error) pair of
the matching local decoder, whatever the remote is, and no request is issued: a decode error
is final and is never followed by a vanity lookup. -/
theorem DetermineSteamID_structural (s : Steam) (net : Remote) (input : List Char)
    (h : strings.HasPrefix input "STEAM_".toList = true ∨
      strings.HasPrefix input "[U:1:".toList = true) :
    s.DetermineSteamID net input =
      (if strings.HasPrefix input "[U:1:".toList = true then SteamID3ToSteamID64 input
        else SteamIDToSteamID64 input, []) := by
  have hS : "STEAM_".toList = 'S' :: ['T', 'E', 'A', 'M', '_'] := by decide
  have hU : "[U:1:".toList = '[' :: ['U', ':', '1', ':'] := by decide
  have hperr : ∃ e, strconv.ParseUint input = .error e := by
    rcases h with h | h
    · rw [hS] at h
      obtain ⟨rest, rfl⟩ := hasPrefix_cons _ _ _ h
      exact ⟨_, parseUint_error_of_head _ _ (by decide)⟩
    · rw [hU] at h
      obtain ⟨rest, rfl⟩ := hasPrefix_cons _ _ _ h
      exact ⟨_, parseUint_error_of_head _ _ (by decide)⟩
  obtain ⟨e, he⟩ := hperr
  simp only [Steam.DetermineSteamID, he]
  by_cases h3 : strings.HasPrefix input "[U:1:".toList = true
  · simp only [h3, if_true]
  · have hs : strings.HasPrefix input "STEAM_".toList = true := h.resolve_right h3
    simp only [h3, hs, if_true, if_false, Bool.false_eq_true]

theorem DetermineSteamID_structural_witness :
    Steam.DetermineSteamID ⟨[], [], []⟩ Remote.found "STEAM_0:1".toList =
      (([], some (.scan .unexpectedEOF)), []) :=
  (DetermineSteamID_structural ⟨[], [], []⟩ Remote.found "STEAM_0:1".toList
    (Or.inl (by decide))).trans (by decide)

/-- C6, as stated, fails: with text after the third field, or with a blank inside, the input
does not have the exact shape and is decoded all the same. -/
theorem SteamIDToSteamID64_exact_shape_counterexample :
    (¬ ExactLegacyShape "STEAM_0:1:4xyz".toList ∧
      SteamIDToSteamID64 "STEAM_0:1:4xyz".toList = ("4503603922337801".toList, none)) ∧
    (¬ ExactLegacyShape "STEAM_0: 1:4".toList ∧
      SteamIDToSteamID64 "STEAM_0: 1:4".toList = ("4503603922337801".toList, none)) := by
  refine ⟨⟨fun h => ?_, by decide⟩, ⟨fun h => ?_, by decide⟩⟩
  · have := exactLegacyShape_chars _ h 'x' (by decide)
    revert this
    decide
  · have := exactLegacyShape_chars _ h ' ' (by decide)
    revert this
    decide

/-- C6, amended: `SteamIDToSteamID64` returns a nil error exactly for the texts that read as
`STEAM_ w1 u : w2 a : w3 n rest`, where `u`, `a`, `n` are non-empty runs of decimal digits with
a value below `2 ^ 32`, `w1`, `w2`, `w3` are possibly empty runs of blanks other than newline,
and `n` is the whole run of digits at its place (the part before `rest` has at most `2 ^ 30`
runes, and `rest` starts with no digit unless that part has exactly `2 ^ 30` runes). For every
such reading the result is the numeral of
`(u << 56 mod 2^64) | 2^52 | 2^32 | ((n*2 + a) mod 2^32)`, whatever `rest` is. Every other text
is rejected with an error. -/
theorem SteamIDToSteamID64_accepts_iff (s : List Char) :
    ((SteamIDToSteamID64 s).2 = none ↔ LenientLegacyShape s) ∧
    (∀ w1 u w2 a w3 n rest, LegacyFields s w1 u w2 a w3 n rest →
      SteamIDToSteamID64 s =
        (strconv.FormatUint ((((strconv.decimalValue u) <<< 56) % 2 ^ 64) ||| (1 <<< 52)
          ||| (1 <<< 32)
          ||| ((strconv.decimalValue n * 2 + strconv.decimalValue a) % 2 ^ 32)), none)) := by
  have hval : ∀ w1 u w2 a w3 n rest, LegacyFields s w1 u w2 a w3 n rest →
      SteamIDToSteamID64 s =
        (strconv.FormatUint ((((strconv.decimalValue u) <<< 56) % 2 ^ 64) ||| (1 <<< 52)
          ||| (1 <<< 32)
          ||| ((strconv.decimalValue n * 2 + strconv.decimalValue a) % 2 ^ 32)), none) := by
    intro w1 u w2 a w3 n rest h
    simp only [SteamIDToSteamID64, fmt.SscanfSTEAM_fields s w1 u w2 a w3 n rest h]
  refine ⟨⟨fun h => ?_, fun h => ?_⟩, hval⟩
  · unfold SteamIDToSteamID64 at h
    split at h
    · simp at h
    · rename_i x y z hscan
      obtain ⟨w1, u, w2, a, w3, n, rest, hf, _, _, _⟩ := fmt.SscanfSTEAM_inv s x y z hscan
      exact ⟨w1, u, w2, a, w3, n, rest, hf⟩
  · obtain ⟨w1, u, w2, a, w3, n, rest, hf⟩ := h
    rw [hval w1 u w2 a w3 n rest hf]

theorem SteamIDToSteamID64_accepts_iff_witness :
    LenientLegacyShape "STEAM_0: 1:4xyz".toList ∧
      LenientLegacyShape "STEAM_0:1:4:5".toList ∧
      ¬ LenientLegacyShape "STEAM_0:1".toList ∧
      ¬ LenientLegacyShape "STEAM_0:1:99999999999".toList ∧
      ¬ LenientLegacyShape "STEAM_0:\n1:4".toList ∧
      ¬ LenientLegacyShape "STEAM_0:1:x".toList :=
  ⟨(SteamIDToSteamID64_accepts_iff _).1.1 (by decide),
    (SteamIDToSteamID64_accepts_iff _).1.1 (by decide),
    fun h => absurd ((SteamIDToSteamID64_accepts_iff _).1.2 h) (by decide),
    fun h => absurd ((SteamIDToSteamID64_accepts_iff _).1.2 h) (by decide),
    fun h => absurd ((SteamIDToSteamID64_accepts_iff _).1.2 h) (by decide),
    fun h => absurd ((SteamIDToSteamID64_accepts_iff _).1.2 h) (by decide)⟩

/-- C7, as stated, fails: a vanity name for which the remote answers 200 without a `steamid`
gives the empty string with a nil error, not an error. -/
theorem DetermineSteamID_no_match_counterexample :
    ¬ strconv.isUint64Numeral "gaben".toList ∧
      strings.HasPrefix "gaben".toList "[U:1:".toList = false ∧
      strings.HasPrefix "gaben".toList "STEAM_".toList = false ∧
      strings.HasPrefix "gaben".toList SteamCommunityAPI = false ∧
      (Steam.DetermineSteamID ⟨[], [], []⟩ Remote.noMatch "gaben".toList).1 = ([], none) := by
  decide

/-- C7, amended: for an input classified as a vanity name, when the remote answers with
status 200 and a readable body that carries no `steamid`, `DetermineSteamID` returns the empty
string with a nil error, after exactly one request for that name. -/
theorem DetermineSteamID_no_match (s : Steam) (net : Remote) (input : List Char)
    (resp : Response) (b : List Char)
    (hnum : ¬ strconv.isUint64Numeral input)
    (h3 : strings.HasPrefix input "[U:1:".toList = false)
    (hS : strings.HasPrefix input "STEAM_".toList = false)
    (hURL : strings.HasPrefix input SteamCommunityAPI = false)
    (hget : net.Get ⟨SteamWebAPIISteamUser ++ "ResolveVanityURL/v1".toList, s.Key, input,
      "json".toList⟩ = .ok resp)
    (hstatus : resp.StatusCode = 200) (hbody : resp.Body = .ok b) (hno : net.steamid b = []) :
    s.DetermineSteamID net input = (([], none),
      [⟨SteamWebAPIISteamUser ++ "ResolveVanityURL/v1".toList, s.Key, input, "json".toList⟩]) := by
  rw [DetermineSteamID_vanity s net input hnum h3 hS hURL]
  have h1 := getSteamIDFromVanity_ok s net input resp b hget hstatus hbody
  have h2 := getSteamIDFromVanity_requests s net input
  rw [hno] at h1
  exact Prod.ext h1 h2

theorem DetermineSteamID_no_match_witness :
    Steam.DetermineSteamID ⟨[], [], []⟩ Remote.noMatch "gaben".toList = (([], none),
      [⟨SteamWebAPIISteamUser ++ "ResolveVanityURL/v1".toList, [], "gaben".toList,
        "json".toList⟩]) :=
  DetermineSteamID_no_match ⟨[], [], []⟩ Remote.noMatch "gaben".toList
    ⟨200, .ok "\x7b\"response\":\x7b\"success\":42\x7d\x7d".toList⟩ _
    (by decide) (by decide) (by decide) (by decide) rfl rfl rfl rfl

/-- C8, as stated, fails: for a profile URL of shape `/id/<name>` whose lookup fails with
`ErrForbidden`, `DetermineSteamID` returns the empty string with a nil error. -/
theorem DetermineSteamID_transport_error_counterexample :
    (Steam.getSteamIDFromVanity ⟨[], [], []⟩ Remote.forbidden "gaben".toList).1
        = ([], some .ErrForbidden) ∧
      Steam.DetermineSteamID ⟨[], [], []⟩ Remote.forbidden
        "https://steamcommunity.com/id/gaben".toList = (([], none),
          [⟨SteamWebAPIISteamUser ++ "ResolveVanityURL/v1".toList, [], "gaben".toList,
            "json".toList⟩]) := by
  decide

/-- C8, amended: when the vanity lookup fails with an error `e`, a bare vanity name gets that
same error back unchanged (with the empty string), while a profile URL whose `/id/<name>`
lookup fails gets the empty string with a nil error. -/
theorem DetermineSteamID_transport_error (s : Steam) (net : Remote) (input name : List Char)
    (e : Error)
    (hnum : ¬ strconv.isUint64Numeral input)
    (h3 : strings.HasPrefix input "[U:1:".toList = false)
    (hS : strings.HasPrefix input "STEAM_".toList = false)
    (herr : (s.getSteamIDFromVanity net name).1.2 = some e) :
    (strings.HasPrefix input SteamCommunityAPI = false → name = input →
      (s.DetermineSteamID net input).1 = ([], some e)) ∧
    (strings.HasPrefix input SteamCommunityAPI = true →
      (∃ whole, regexp.FindStringSubmatch regexp.vanityLit regexp.notSlash input = [whole, name]) →
      (s.DetermineSteamID net input).1 = ([], none)) := by
  constructor
  · intro hURL hname
    subst hname
    rw [DetermineSteamID_vanity s net name hnum h3 hS hURL]
    exact getSteamIDFromVanity_error s net name e herr
  · rintro hURL ⟨whole, hm⟩
    rw [DetermineSteamID_url s net input hURL]
    simp only [Steam.getSteamIDFromURL, hm, List.length_cons, List.length_nil, Nat.zero_add,
      Nat.reduceAdd, gt_iff_lt, Nat.one_lt_ofNat, if_true, List.getD_cons_succ,
      List.getD_cons_zero, herr]

theorem DetermineSteamID_transport_error_witness :
    (Steam.DetermineSteamID ⟨[], [], []⟩ Remote.forbidden "gaben".toList).1
        = ([], some .ErrForbidden) ∧
      (Steam.DetermineSteamID ⟨[], [], []⟩ Remote.forbidden
        "https://steamcommunity.com/id/gaben".toList).1 = ([], none) :=
  ⟨(DetermineSteamID_transport_error ⟨[], [], []⟩ Remote.forbidden "gaben".toList "gaben".toList
      .ErrForbidden (by decide) (by decide) (by decide) (by decide)).1 (by decide) rfl,
    (DetermineSteamID_transport_error ⟨[], [], []⟩ Remote.forbidden
      "https://steamcommunity.com/id/gaben".toList "gaben".toList
      .ErrForbidden (by decide) (by decide) (by decide) (by decide)).2 (by decide)
      ⟨"https://steamcommunity.com/id/gaben".toList, by decide⟩⟩

/-- C9, as stated, fails: a text with the profile-URL prefix that contains a match of
`/profiles/<digits>` after a match of `/id/<name>` triggers a request for the name, and when
that lookup fails the result is the empty string instead of the digits; with another remote
the same input gives the digits, so the result depends on the remote. -/
theorem DetermineSteamID_profiles_counterexample :
    strings.HasPrefix
        "https://steamcommunity.com/id/x/https://steamcommunity.com/profiles/123".toList
        SteamCommunityAPI = true ∧
      regexp.FindStringSubmatch regexp.ID64Lit regexp.digit
        "https://steamcommunity.com/id/x/https://steamcommunity.com/profiles/123".toList =
        ["https://steamcommunity.com/profiles/123".toList, "123".toList] ∧
      Steam.DetermineSteamID ⟨[], [], []⟩ Remote.forbidden
        "https://steamcommunity.com/id/x/https://steamcommunity.com/profiles/123".toList =
        (([], none), [⟨SteamWebAPIISteamUser ++ "ResolveVanityURL/v1".toList, [], "x".toList,
          "json".toList⟩]) ∧
      (Steam.DetermineSteamID ⟨[], [], []⟩ Remote.found
        "https://steamcommunity.com/id/x/https://steamcommunity.com/profiles/123".toList).1 =
        ("123".toList, none) := by
  decide

/-- C9, amended: for an input with the profile-URL prefix in which the pattern
`https://steamcommunity.com/profiles/(\d+)` matches with group `ds`: when the pattern
`https://steamcommunity.com/id/([^/]+)` matches nowhere, `DetermineSteamID` returns `ds` with
a nil error for every remote and issues no request; when it does match, with group `name`,
exactly one request is issued, the lookup of `name`, and the digits `ds` are still returned
with a nil error provided that lookup does not fail. -/
theorem DetermineSteamID_profiles (s : Steam) (net : Remote) (input whole ds : List Char)
    (hURL : strings.HasPrefix input SteamCommunityAPI = true)
    (hid : regexp.FindStringSubmatch regexp.ID64Lit regexp.digit input = [whole, ds]) :
    (regexp.FindStringSubmatch regexp.vanityLit regexp.notSlash input = [] →
      s.DetermineSteamID net input = ((ds, none), [])) ∧
    (∀ w name, regexp.FindStringSubmatch regexp.vanityLit regexp.notSlash input = [w, name] →
      (s.DetermineSteamID net input).2 =
        [⟨SteamWebAPIISteamUser ++ "ResolveVanityURL/v1".toList, s.Key, name,
          "json".toList⟩] ∧
      ((s.getSteamIDFromVanity net name).1.2 = none →
        s.DetermineSteamID net input = ((ds, none),
          [⟨SteamWebAPIISteamUser ++ "ResolveVanityURL/v1".toList, s.Key, name,
            "json".toList⟩]))) := by
  constructor
  · intro hv
    rw [DetermineSteamID_url s net input hURL]
    simp only [Steam.getSteamIDFromURL, hv, hid, List.length_cons, List.length_nil, Nat.zero_add,
      Nat.reduceAdd, gt_iff_lt, Nat.one_lt_ofNat, Nat.not_lt_zero, if_true, if_false,
      List.getD_cons_succ, List.getD_cons_zero]
  · intro w name hv
    have hreq := getSteamIDFromVanity_requests s net name
    rw [DetermineSteamID_url s net input hURL]
    constructor
    · simp only [Steam.getSteamIDFromURL, hv, hid, List.length_cons, List.length_nil,
        Nat.zero_add, Nat.reduceAdd, gt_iff_lt, Nat.one_lt_ofNat, if_true,
        List.getD_cons_succ, List.getD_cons_zero]
      split <;> exact hreq
    · intro hok
      simp only [Steam.getSteamIDFromURL, hv, hid, List.length_cons, List.length_nil,
        Nat.zero_add, Nat.reduceAdd, gt_iff_lt, Nat.one_lt_ofNat, if_true,
        List.getD_cons_succ, List.getD_cons_zero, hok, hreq]

theorem DetermineSteamID_profiles_witness :
    Steam.DetermineSteamID ⟨[], [], []⟩ Remote.forbidden
        "https://steamcommunity.com/profiles/76561197960287930".toList =
        (("76561197960287930".toList, none), []) ∧
      Steam.DetermineSteamID ⟨[], [], []⟩ Remote.found
        "https://steamcommunity.com/id/x/https://steamcommunity.com/profiles/123".toList =
        (("123".toList, none), [⟨SteamWebAPIISteamUser ++ "ResolveVanityURL/v1".toList, [],
          "x".toList, "json".toList⟩]) ∧
      (Steam.DetermineSteamID ⟨[], [], []⟩ Remote.forbidden
        "https://steamcommunity.com/id/x/https://steamcommunity.com/profiles/123".toList).2 =
        [⟨SteamWebAPIISteamUser ++ "ResolveVanityURL/v1".toList, [], "x".toList,
          "json".toList⟩] :=
  ⟨(DetermineSteamID_profiles ⟨[], [], []⟩ Remote.forbidden
      "https://steamcommunity.com/profiles/76561197960287930".toList
      "https://steamcommunity.com/profiles/76561197960287930".toList "76561197960287930".toList
      (by decide) (by decide)).1 (by decide),
    ((DetermineSteamID_profiles ⟨[], [], []⟩ Remote.found
      "https://steamcommunity.com/id/x/https://steamcommunity.com/profiles/123".toList
      "https://steamcommunity.com/profiles/123".toList "123".toList
      (by decide) (by decide)).2 "https://steamcommunity.com/id/x".toList "x".toList
      (by decide)).2 (by decide),
    ((DetermineSteamID_profiles ⟨[], [], []⟩ Remote.forbidden
      "https://steamcommunity.com/id/x/https://steamcommunity.com/profiles/123".toList
      "https://steamcommunity.com/profiles/123".toList "123".toList
      (by decide) (by decide)).2 "https://steamcommunity.com/id/x".toList "x".toList
      (by decide)).1⟩

/-- C10: for a non-empty name without a slash, `DetermineSteamID` on
`https://steamcommunity.com/id/<name>` issues exactly one request, whose query term is exactly
the name, and when the lookup succeeds (status 200, readable body) it returns the identifier
the remote reported with a nil error. -/
theorem DetermineSteamID_id_url (s : Steam) (net : Remote) (name : List Char)
    (hne : name ≠ []) (hslash : '/' ∉ name) :
    (s.DetermineSteamID net ("https://steamcommunity.com/id/".toList ++ name)).2 =
      [⟨SteamWebAPIISteamUser ++ "ResolveVanityURL/v1".toList, s.Key, name, "json".toList⟩] ∧
    (∀ resp b,
      net.Get ⟨SteamWebAPIISteamUser ++ "ResolveVanityURL/v1".toList, s.Key, name,
        "json".toList⟩ = .ok resp →
      resp.StatusCode = 200 → resp.Body = .ok b →
      (s.DetermineSteamID net ("https://steamcommunity.com/id/".toList ++ name)).1 =
        (net.steamid b, none)) := by
  have hv : regexp.FindStringSubmatch regexp.vanityLit regexp.notSlash
      (regexp.vanityLit ++ name) = [regexp.vanityLit ++ name, name] :=
    regexp.FindStringSubmatch_lit_append _ _ name hne (fun c hc => by
      simp only [regexp.notSlash, bne_iff_ne, ne_eq]
      rintro rfl
      exact hslash hc)
  have hid := ID64_no_match_in_id_url name hslash
  have hURL : strings.HasPrefix (regexp.vanityLit ++ name) SteamCommunityAPI = true := by
    have : regexp.vanityLit = SteamCommunityAPI ++ "id/".toList := by decide
    rw [this, List.append_assoc]
    exact List.isPrefixOf_iff_prefix.2 (List.prefix_append _ _)
  show (s.DetermineSteamID net (regexp.vanityLit ++ name)).2 = _ ∧ ∀ resp b, _ → _ → _ →
    (s.DetermineSteamID net (regexp.vanityLit ++ name)).1 = _
  rw [DetermineSteamID_url s net _ hURL]
  have hreq := getSteamIDFromVanity_requests s net name
  constructor
  · simp only [Steam.getSteamIDFromURL, hv, hid, List.length_cons, List.length_nil,
      Nat.zero_add, Nat.reduceAdd, gt_iff_lt, Nat.one_lt_ofNat, Nat.not_lt_zero, if_true,
      if_false, List.getD_cons_succ, List.getD_cons_zero]
    split <;> exact hreq
  · intro resp b hget hstatus hbody
    have hok := getSteamIDFromVanity_ok s net name resp b hget hstatus hbody
    simp only [Steam.getSteamIDFromURL, hv, hid, List.length_cons, List.length_nil,
      Nat.zero_add, Nat.reduceAdd, gt_iff_lt, Nat.one_lt_ofNat, Nat.not_lt_zero, if_true,
      if_false, List.getD_cons_succ, List.getD_cons_zero, hok]

theorem DetermineSteamID_id_url_witness :
    (Steam.DetermineSteamID ⟨"KEY".toList, [], []⟩ Remote.found
        ("https://steamcommunity.com/id/".toList ++ "gaben".toList)).2 =
        [⟨SteamWebAPIISteamUser ++ "ResolveVanityURL/v1".toList, "KEY".toList, "gaben".toList,
          "json".toList⟩] ∧
      (Steam.DetermineSteamID ⟨"KEY".toList, [], []⟩ Remote.found
        ("https://steamcommunity.com/id/".toList ++ "gaben".toList)).1 =
        ("76561197960287930".toList, none) :=
  ⟨(DetermineSteamID_id_url ⟨"KEY".toList, [], []⟩ Remote.found "gaben".toList (by decide)
      (by decide)).1,
    (DetermineSteamID_id_url ⟨"KEY".toList, [], []⟩ Remote.found "gaben".toList (by decide)
      (by decide)).2 ⟨200, .ok foundBody⟩ foundBody rfl rfl rfl⟩

/-- C11: `accountNumber*2 + authServer` is computed in `uint32`, so the decoder is not
injective on what it accepts: for all `uint32` fields `u`, `a` and every accountNumber `n` with
`2^31 <= n < 2^32`, the texts `STEAM_<u>:<a>:<n>` and `STEAM_<u>:<a>:<n - 2^31>` are different,
both are decoded with a nil error, and both give the same identifier (the high bit of the
account number is dropped, not rejected). -/
theorem SteamIDToSteamID64_high_bit_dropped (u a n : Nat) (hu : u < 2 ^ 32) (ha : a < 2 ^ 32)
    (hlo : 2 ^ 31 ≤ n) (hn : n < 2 ^ 32) :
    "STEAM_".toList ++ strconv.FormatUint u ++ ':' :: strconv.FormatUint a
        ++ ':' :: strconv.FormatUint n ≠
      "STEAM_".toList ++ strconv.FormatUint u ++ ':' :: strconv.FormatUint a
        ++ ':' :: strconv.FormatUint (n - 2 ^ 31) ∧
    (SteamIDToSteamID64 ("STEAM_".toList ++ strconv.FormatUint u ++ ':' :: strconv.FormatUint a
      ++ ':' :: strconv.FormatUint n)).2 = none ∧
    SteamIDToSteamID64 ("STEAM_".toList ++ strconv.FormatUint u ++ ':' :: strconv.FormatUint a
      ++ ':' :: strconv.FormatUint n) =
      SteamIDToSteamID64 ("STEAM_".toList ++ strconv.FormatUint u ++ ':' :: strconv.FormatUint a
        ++ ':' :: strconv.FormatUint (n - 2 ^ 31)) := by
  have h1 := SteamIDToSteamID64_render u a n hu ha hn
  have h2 := SteamIDToSteamID64_render u a (n - 2 ^ 31) hu ha (by omega)
  have hacc : ((n - 2 ^ 31) * 2 + a) % 2 ^ 32 = (n * 2 + a) % 2 ^ 32 := by omega
  refine ⟨fun heq => ?_, by rw [h1], by rw [h1, h2, hacc]⟩
  have hF : strconv.FormatUint n = strconv.FormatUint (n - 2 ^ 31) := by
    simpa only [List.append_assoc, List.cons_append, List.append_cancel_left_eq,
      List.cons.injEq, true_and] using heq
  have v1 := (strconv.FormatUint_spec n (lt_trans hn (by norm_num))).2.2.2
  have v2 := (strconv.FormatUint_spec (n - 2 ^ 31) (by omega)).2.2.2
  rw [hF, v2] at v1
  omega

theorem SteamIDToSteamID64_high_bit_dropped_witness :
    "STEAM_".toList ++ strconv.FormatUint 0 ++ ':' :: strconv.FormatUint 1
        ++ ':' :: strconv.FormatUint 2147483652 = "STEAM_0:1:2147483652".toList ∧
      "STEAM_".toList ++ strconv.FormatUint 0 ++ ':' :: strconv.FormatUint 1
        ++ ':' :: strconv.FormatUint (2147483652 - 2 ^ 31) = "STEAM_0:1:4".toList ∧
      SteamIDToSteamID64 "STEAM_0:1:2147483652".toList = ("4503603922337801".toList, none) ∧
      SteamIDToSteamID64 ("STEAM_".toList ++ strconv.FormatUint 0 ++ ':' :: strconv.FormatUint 1
        ++ ':' :: strconv.FormatUint 2147483652) =
        SteamIDToSteamID64 ("STEAM_".toList ++ strconv.FormatUint 0
          ++ ':' :: strconv.FormatUint 1 ++ ':' :: strconv.FormatUint (2147483652 - 2 ^ 31)) :=
  ⟨by decide, by decide, by decide,
    (SteamIDToSteamID64_high_bit_dropped 0 1 2147483652 (by decide) (by decide) (by decide)
      (by decide)).2.2⟩
